import Mathlib

/-!
  # Formal model of the InkScript engine

  A shallow embedding of the InkScript paint program: the document model
  (`Stroke`, `Layer`, document state), the geometry kernel
  (`point_in_polygon`, the eraser hit test), the `.inks` loader of
  `inkpaint0.3.py` (`load_from_lines`), its serializer (`save_inks_lines`),
  the undo/redo action log, and the standalone renderer's draw-path
  reader (`inks_renderer.py`).

  Conventions of the embedding:

  * Real-valued coordinates are modelled as rationals; the Python float
    literal `1e-12` in the ray-casting test is modelled as the exact
    rational `10⁻¹²`, and non-finite floats (`inf`, `nan`) are outside the
    model (numeric parses that would produce them count as failures).
  * Python code that can raise an uncaught exception is modelled with an
    explicit error outcome carrying the state reached at the raise point.
  * String processing mirrors `str.strip`, `str.split`, `str.partition`
    and the two regular expressions of the loader, specialised to the
    character classes those regexes use.
-/

set_option maxRecDepth 8000

unseal Rat.mul Rat.add Rat.inv Rat.sub

namespace InkScript

/-! ## Python-style string utilities -/

/-- Whitespace recognised by `str.strip()` / `str.split()`. -/
def isSpaceChar (c : Char) : Bool :=
  c = ' ' || c = '\t' || c = '\n' || c = '\r' || c = '\x0b' || c = '\x0c'

/-- Drop characters satisfying `p` from both ends (Python `str.strip(chars)`). -/
def stripEnds (p : Char → Bool) (l : List Char) : List Char :=
  ((l.dropWhile p).reverse.dropWhile p).reverse

/-- `str.strip()` on a string. -/
def pyStrip (s : String) : String := ⟨stripEnds isSpaceChar s.toList⟩

/-- `str.strip('"')`: drop any number of double quotes from both ends. -/
def pyStripQuotes (s : String) : String := ⟨stripEnds (fun c => c = '"') s.toList⟩

/-- `pre.isPrefixOf s` on the character lists (Python `str.startswith`). -/
def strStartsWith (s pre : String) : Bool := pre.toList.isPrefixOf s.toList

/-- Python `c in s` for a single character. -/
def strContainsChar (c : Char) (s : String) : Bool := s.toList.contains c

/-- Worker for substring containment: try a prefix match at every
suffix. -/
def isInfixL (sub : List Char) : List Char → Bool
  | [] => sub.isEmpty
  | c :: rest => sub.isPrefixOf (c :: rest) || isInfixL sub rest

/-- Python `sub in s` for a substring. -/
def strContainsStr (sub s : String) : Bool := isInfixL sub.toList s.toList

/-- Fuelled worker for whitespace splitting (`str.split()` with no
separator: maximal runs of non-whitespace). -/
def splitWsF : ℕ → List Char → List (List Char)
  | 0, _ => []
  | _, [] => []
  | n + 1, c :: cs =>
    if isSpaceChar c then splitWsF n cs
    else (c :: cs.takeWhile (fun d => !isSpaceChar d)) ::
         splitWsF n (cs.dropWhile (fun d => !isSpaceChar d))

/-- `str.split()`. -/
def splitWs (s : String) : List String :=
  (splitWsF s.toList.length s.toList).map (fun l => (⟨l⟩ : String))

/-- First whitespace-separated token, or `""` (`s.split()[0]` guarded). -/
def headTokenD (s : String) : String :=
  match splitWs s with
  | [] => ""
  | t :: _ => t

/-- `str.split(None, 1)`: leading token and the remainder after the
whitespace run that follows it; `none` when there is no second part. -/
def splitFirstWs (s : String) : Option (String × String) :=
  let l := s.toList.dropWhile isSpaceChar
  let tok := l.takeWhile (fun d => !isSpaceChar d)
  let rest := (l.dropWhile (fun d => !isSpaceChar d)).dropWhile isSpaceChar
  if tok.isEmpty then none
  else if rest.isEmpty then none
  else some (⟨tok⟩, ⟨rest⟩)

/-- Characters before the first occurrence of `c` (`s.partition(c).0`). -/
def beforeFirstChar (c : Char) (s : String) : String :=
  ⟨s.toList.takeWhile (fun d => d ≠ c)⟩

/-- Characters after the first occurrence of `c` (`s.partition(c).2`,
also `s.split(c, 1)[1]` at guarded call sites); `""` when absent. -/
def afterFirstChar (c : Char) (s : String) : String :=
  ⟨(s.toList.dropWhile (fun d => d ≠ c)).drop 1⟩

/-- Index of the first occurrence of `c` (`s.index(c)` as an option). -/
def firstIdxOf (c : Char) (s : String) : Option ℕ :=
  s.toList.findIdx? (fun d => d = c)

/-- Drop the first `n` characters. -/
def strDrop (s : String) (n : ℕ) : String := ⟨s.toList.drop n⟩

/-- Python `str.lower()` (ASCII). -/
def toLowerStr (s : String) : String := ⟨s.toList.map Char.toLower⟩

/-! ## Python-style numeric parsing -/

/-- Decimal digit test. -/
def isDigitCh (c : Char) : Bool := decide ('0' ≤ c) && decide (c ≤ '9')

/-- All characters are decimal digits and there is at least one. -/
def isDigits (l : List Char) : Bool := !l.isEmpty && l.all isDigitCh

/-- Numeric value of a digit string (caller guarantees `isDigits`). -/
def natFromDigits (l : List Char) : ℕ :=
  l.foldl (fun acc c => 10 * acc + (c.toNat - '0'.toNat)) 0

/-- Sign-and-digit split shared by `int()` and `float()` parsing. -/
def splitSign (l : List Char) : Int × List Char :=
  match l with
  | '-' :: r => (-1, r)
  | '+' :: r => (1, r)
  | r => (1, r)

/-- Python `int(s)` (base 10): optional surrounding whitespace, optional
sign, then decimal digits. `none` models the `ValueError`. -/
def pyInt (s : String) : Option Int :=
  let l := stripEnds isSpaceChar s.toList
  let (sg, ds) := splitSign l
  if isDigits ds then some (sg * (natFromDigits ds : Int)) else none

/-- `10 ^ n` as a rational. -/
def pow10 (n : ℕ) : ℚ := ((10 ^ n : ℕ) : ℚ)

/-- Python `float(s)` restricted to finite decimal/scientific literals:
optional sign, digits with an optional fractional part (at least one digit
overall), optional `e`/`E` exponent. Non-finite floats (`inf`, `nan`) are
outside the rational model and count as failures. -/
def pyFloat (s : String) : Option ℚ :=
  let l := stripEnds isSpaceChar s.toList
  let (sg, body) := splitSign l
  let mant := body.takeWhile (fun c => c ≠ 'e' && c ≠ 'E')
  let expTail :=
    match body.dropWhile (fun c => c ≠ 'e' && c ≠ 'E') with
    | [] => none
    | _ :: r => some r
  let ip := mant.takeWhile (fun c => c ≠ '.')
  let fpOpt :=
    match mant.dropWhile (fun c => c ≠ '.') with
    | [] => none
    | _ :: r => some r
  let fp := fpOpt.getD []
  if !(ip.all isDigitCh) then none
  else if !(fp.all isDigitCh) then none
  else if ip.isEmpty && fp.isEmpty then none
  else
    let base : ℚ := (sg : ℚ) * ((natFromDigits (ip ++ fp) : ℕ) : ℚ) / pow10 fp.length
    match expTail with
    | none => some base
    | some e =>
      let (esg, eds) := splitSign e
      if isDigits eds then
        let k := natFromDigits eds
        some (if esg = 1 then base * pow10 k else base / pow10 k)
      else none

/-- Python `int(float(s))`: parse as a float, truncate toward zero. -/
def pyFloatInt (s : String) : Option Int :=
  (pyFloat s).map (fun q => q.num / (q.den : Int))

/-! ## Document model (`Stroke`, `Layer`, document state)

Mirrors the `Stroke` and `Layer` classes of `inkpaint0.3.py` and the
document-level fields of the `InkPaint` instance (`width`, `height`,
`bg_color`, `layers`, `layer_counter`, `stroke_counter`). -/

structure Stroke where
  id : String
  color : Option String
  width : Int
  points : List (ℚ × ℚ)
  erased : Bool
  fill : Option String
deriving DecidableEq, Repr

structure Layer where
  id : Int
  name : String
  visible : Bool
  strokes : List Stroke
deriving DecidableEq, Repr

/-- The document-level state of an `InkPaint` instance (GUI fields
excluded). -/
structure DocState where
  width : Int
  height : Int
  bgColor : String
  layers : List Layer
  layerCounter : Int
  strokeCounter : Int
deriving DecidableEq, Repr

/-- The state `new_document` leaves behind: default canvas, one layer
`Layer 1` with id 1, counters 2 and 1. -/
def defaultDoc : DocState :=
  { width := 1000, height := 700, bgColor := "#0b0d12"
    layers := [{ id := 1, name := "Layer 1", visible := true, strokes := [] }]
    layerCounter := 2, strokeCounter := 1 }

/-! ## Geometry kernel -/

/-- The epsilon guard `1e-12` of `_point_in_polygon`, as an exact
rational. -/
def pipEps : ℚ := 1 / 1000000000000

/-- One edge's crossing test in `_point_in_polygon`:
`((yi > y) != (yj > y)) and (x < (xj - xi) * (y - yi) / (yj - yi + 1e-12) + xi)`. -/
def pipEdge (x y xi yi xj yj : ℚ) : Bool :=
  (decide (yi > y) != decide (yj > y)) &&
  decide (x < (xj - xi) * (y - yi) / (yj - yi + pipEps) + xi)

/-- `_point_in_polygon`: ray casting over the closed ring, toggling
`inside` at each crossing edge `(polygon[i], polygon[(i+1) % n])`. -/
def point_in_polygon (p : ℚ × ℚ) (polygon : List (ℚ × ℚ)) : Bool :=
  (List.range polygon.length).foldl
    (fun inside i =>
      let vi := polygon.getD i (0, 0)
      let vj := polygon.getD ((i + 1) % polygon.length) (0, 0)
      if pipEdge p.1 p.2 vi.1 vi.2 vj.1 vj.2 then !inside else inside)
    false

/-- The pairwise proximity test at the heart of `_apply_eraser_path`:
some path point and some stroke point with `dx*dx + dy*dy <= rad*rad`. -/
def strokeHit (path : List (ℚ × ℚ)) (rad : ℚ) (pts : List (ℚ × ℚ)) : Bool :=
  path.any (fun ep => pts.any (fun sp =>
    decide ((ep.1 - sp.1) * (ep.1 - sp.1) + (ep.2 - sp.2) * (ep.2 - sp.2) ≤ rad * rad)))

/-- The stroke scan of `_apply_eraser_path` over one layer's stroke list:
already-erased strokes are skipped, hit strokes get `erased := true`, and
the hit ids are collected in stroke order. -/
def eraserPass (path : List (ℚ × ℚ)) (rad : ℚ) : List Stroke → List Stroke × List String
  | [] => ([], [])
  | s :: rest =>
    let r := eraserPass path rad rest
    if !s.erased && strokeHit path rad s.points then
      ({ s with erased := true } :: r.1, s.id :: r.2)
    else
      (s :: r.1, r.2)

/-! ## The loader's two regular expressions

`parse_attrs_from_header` uses `re.findall(r'(\w+)=("[^"]+"|\S+)', text)`;
the `id=`/`ref=` extraction uses `re.search(r'id=("[^"]+"|\S+)', text)`.
Both share the value shape: a quoted run `"[^"]+"` (quotes kept in the
match) or, failing that, a maximal non-whitespace run `\S+`. -/

/-- Word character of `\w` (ASCII). -/
def isWordChar (c : Char) : Bool := c.isAlphanum || c = '_'

/-- Match the value alternative `("[^"]+"|\S+)` at the head of `l`,
returning the matched characters and the remainder; `none` when neither
alternative matches (empty value). -/
def matchValue (l : List Char) : Option (List Char × List Char) :=
  let fallback :=
    let v := l.takeWhile (fun c => !isSpaceChar c)
    if v.isEmpty then none else some (v, l.drop v.length)
  match l with
  | '"' :: cs =>
    let inner := cs.takeWhile (fun c => c ≠ '"')
    (match cs.dropWhile (fun c => c ≠ '"') with
     | '"' :: rest => if inner.isEmpty then fallback else some ('"' :: (inner ++ ['"']), rest)
     | _ => fallback)
  | _ => fallback

/-- Fuelled scan of `re.findall(r'(\w+)=("[^"]+"|\S+)', ·)`: at each
position, a maximal word run followed by `=` and a value yields a match
(scanning resumes after it); otherwise the scan advances one character. -/
def findAttrsF : ℕ → List Char → List (String × String)
  | 0, _ => []
  | _, [] => []
  | n + 1, c :: cs =>
    if isWordChar c then
      let w := (c :: cs).takeWhile isWordChar
      match (c :: cs).dropWhile isWordChar with
      | '=' :: afterEq =>
        (match matchValue afterEq with
         | some (v, rest) => ((⟨w⟩ : String), (⟨v⟩ : String)) :: findAttrsF n rest
         | none => findAttrsF n cs)
      | _ => findAttrsF n cs
    else findAttrsF n cs

/-- `parse_attrs_from_header` before the `dict(...)` step. -/
def findAttrs (s : String) : List (String × String) :=
  findAttrsF s.toList.length s.toList

/-- `dict(re.findall(...)).get k`: the last binding of `k` wins. -/
def attrGet (attrs : List (String × String)) (k : String) : Option String :=
  attrs.reverse.lookup k

/-- Fuelled `re.search(pat ++ r'("[^"]+"|\S+)', ·)` for a literal `pat`
(`"id="` or `"ref="`): leftmost occurrence of `pat` followed by a value. -/
def searchKeyValF (pat : List Char) : ℕ → List Char → Option String
  | 0, _ => none
  | _, [] => none
  | n + 1, c :: cs =>
    if pat.isPrefixOf (c :: cs) then
      match matchValue ((c :: cs).drop pat.length) with
      | some (v, _) => some (⟨v⟩ : String)
      | none => searchKeyValF pat n cs
    else searchKeyValF pat n cs

/-- `re.search` for `id=`/`ref=` values in a line. -/
def searchKeyVal (pat : String) (s : String) : Option String :=
  searchKeyValF pat.toList s.toList.length s.toList

/-! ## Style tokens and the draw-block finisher -/

/-- `token.split("=", 1)` when the token contains `=`. -/
def splitFirstEq (t : String) : Option (String × String) :=
  if strContainsChar '=' t then some (beforeFirstChar '=' t, afterFirstChar '=' t)
  else none

/-- `parse_style_tokens`: whitespace-split the stripped text, keep
`key=value` tokens, strip whitespace and quotes off each value. -/
def parse_style_tokens (styleText : String) : List (String × String) :=
  (splitWs (pyStrip styleText)).foldl
    (fun acc token =>
      match splitFirstEq token with
      | some (k, v) => acc ++ [(k, pyStripQuotes (pyStrip v))]
      | none => acc) []

/-- Dictionary lookup over style tokens (last binding wins). -/
def styleGet (style : List (String × String)) (k : String) : Option String :=
  style.reverse.lookup k

/-- Python truthiness-based `a or b` on an optional string: an absent or
empty value falls through to the default. -/
def pyOrStr (o : Option String) (d : String) : String :=
  match o with
  | some v => if v = "" then d else v
  | none => d

/-- The numeric suffix the loader reads off ids of the form
`stroke_<n>` (`int(sid.split("_", 1)[1])` guarded by `startswith`). -/
def strokeSuffix (sid : String) : Option Int :=
  if strStartsWith sid "stroke_" then pyInt (strDrop sid 7) else none

/-- `f"stroke_{counter}"`, the synthesized id for a block without one. -/
def synthSid (c : Int) : String := "stroke_" ++ toString c

/-- Apply `f` to the last layer (the currently open one: the loader's
`current_layer` is always the most recently appended layer). -/
def modifyLast (f : Layer → Layer) : List Layer → List Layer
  | [] => []
  | [l] => [f l]
  | l :: l' :: rest => l :: modifyLast f (l' :: rest)

/-- Update the first stroke with the given id (the loader's `erase`
handler breaks after the first match). -/
def updateFirstStroke (sid : String) (f : Stroke → Stroke) : List Stroke → List Stroke
  | [] => []
  | s :: rest => if s.id = sid then f s :: rest else s :: updateFirstStroke sid f rest

/-- The loader's running state: the document fields it mutates plus the
local parse state (`current_layer` openness, `in_draw`, `draw_id`,
`draw_pts`). -/
structure LoadState where
  doc : DocState
  layerOpen : Bool
  inDraw : Bool
  drawId : Option String
  drawPts : List (ℚ × ℚ)
deriving DecidableEq, Repr

/-- The id `finish_draw_block` settles on: the given one, or a
synthesized `stroke_<counter>` when it is absent or empty (`if not sid`). -/
def resolveSid (sid? : Option String) (c : Int) : String :=
  match sid? with
  | none => synthSid c
  | some s => if s = "" then synthSid c else s

/-- The width text `finish_draw_block` reads:
`style.get("strokeWidth", style.get("width", "2"))`. -/
def resolveWidthStr (style : List (String × String)) : String :=
  match styleGet style "strokeWidth" with
  | some v => v
  | none =>
    match styleGet style "width" with
    | some v => v
    | none => "2"

/-- `finish_draw_block`: build the stroke from the collected points and
style tokens, append it to the open layer, and advance the stroke counter
past any `stroke_<n>` suffix. A malformed `strokeWidth`/`width` value
makes `int(float(...))` raise, modelled as `none`. Without an open layer
the call returns immediately. -/
def finish_draw_block (st : LoadState) (sid? : Option String) (pts : List (ℚ × ℚ))
    (style : List (String × String)) : Option LoadState :=
  if st.layerOpen = false then some st
  else
    let sid := resolveSid sid? st.doc.strokeCounter
    let color := pyOrStr (styleGet style "stroke") (pyOrStr (styleGet style "color") "#000000")
    match pyFloatInt (resolveWidthStr style) with
    | none => none
    | some w =>
      let stroke : Stroke :=
        { id := sid, color := some color, width := w, points := pts, erased := false
          fill := styleGet style "fill" }
      let counter :=
        match strokeSuffix sid with
        | some n => if n ≥ st.doc.strokeCounter then n + 1 else st.doc.strokeCounter
        | none => st.doc.strokeCounter
      some { st with doc := { st.doc with
               layers := modifyLast (fun l => { l with strokes := l.strokes ++ [stroke] }) st.doc.layers
               strokeCounter := counter } }

/-- One candidate command line inside a draw block: strip, and append a
point when it reads `move <x> <y>` or `line <x> <y>` with two parseable
floats (a malformed coordinate is dropped by the `try`/`except`). -/
def procCmdLine (pts : List (ℚ × ℚ)) (text : String) : List (ℚ × ℚ) :=
  let s2 := pyStrip text
  if s2 = "" then pts
  else
    match splitWs s2 with
    | cmd :: a :: b :: _ =>
      if cmd = "move" || cmd = "line" then
        match pyFloat a, pyFloat b with
        | some x, some y => pts ++ [(x, y)]
        | _, _ => pts
      else pts
    | _ => pts

/-- `'{' in line and '}' in line and line.index('}') > line.index('{')`. -/
def braceOpenClose (line : String) : Bool :=
  match firstIdxOf '\x7b' line, firstIdxOf '\x7d' line with
  | some i, some j => decide (j > i)
  | _, _ => false

/-! ## The loader's per-line state machine (`_load_from_lines`) -/

/-- One iteration of the `_load_from_lines` loop. `Except.error`
carries the state at an uncaught exception (the only raise point is the
width parse inside `finish_draw_block`); the document fields of that
state are exactly what the application is left with. -/
def loadStep (st : LoadState) (line : String) : Except LoadState LoadState :=
  let stripped := pyStrip line
  if stripped = "" || strStartsWith stripped "#" then .ok st
  else if st.inDraw then
    (if strContainsChar '\x7d' line then
      let left := beforeFirstChar '\x7d' line
      let right := afterFirstChar '\x7d' line
      let pts := procCmdLine st.drawPts left
      let style := parse_style_tokens (pyStrip right)
      match finish_draw_block st st.drawId pts style with
      | none => .error st
      | some st' => .ok { st' with inDraw := false, drawId := none, drawPts := [] }
    else
      .ok { st with drawPts := procCmdLine st.drawPts line })
  else if strStartsWith stripped "canvas" then
    (match splitWs stripped with
     | _ :: p1 :: p2 :: _ =>
       (match pyInt p1 with
        | none => .ok st
        | some w =>
          match pyInt p2 with
          | none => .ok { st with doc := { st.doc with width := w } }
          | some h => .ok { st with doc := { st.doc with width := w, height := h } })
     | _ => .ok st)
  else if strStartsWith stripped "background" then
    (match splitFirstWs stripped with
     | some (_, rest) => .ok { st with doc := { st.doc with bgColor := pyStrip rest } }
     | none => .ok st)
  else if strStartsWith stripped "layer" then
    let attrs := findAttrs stripped
    let lid :=
      match attrGet attrs "id" with
      | none => st.doc.layerCounter
      | some v => (pyInt v).getD st.doc.layerCounter
    let name := pyStripQuotes ((attrGet attrs "name").getD ("Layer " ++ toString lid))
    let vis := ((attrGet attrs "visible").getD "true") == "true"
    let newLayer : Layer := { id := lid, name := name, visible := vis, strokes := [] }
    .ok { st with
          doc := { st.doc with
                   layers := st.doc.layers ++ [newLayer]
                   layerCounter := if lid ≥ st.doc.layerCounter then lid + 1 else st.doc.layerCounter }
          layerOpen := true }
  else if strStartsWith stripped "\x7d" then
    .ok { st with layerOpen := false }
  else if strStartsWith stripped "draw" && strContainsStr "path" stripped && st.layerOpen then
    let sid? := (searchKeyVal "id=" stripped).map pyStripQuotes
    if braceOpenClose line then
      let inner := beforeFirstChar '\x7d' (afterFirstChar '\x7b' line)
      let pts := procCmdLine st.drawPts inner
      let style := parse_style_tokens (afterFirstChar '\x7d' line)
      match finish_draw_block st sid? pts style with
      | none => .error st
      | some st' => .ok { st' with inDraw := false, drawId := none, drawPts := [] }
    else
      .ok { st with
            inDraw := true
            drawId := sid?
            drawPts := if strContainsChar '\x7b' line then procCmdLine [] (afterFirstChar '\x7b' line) else [] }
  else if strStartsWith stripped "erase" && st.layerOpen then
    (match (searchKeyVal "ref=" stripped).map pyStripQuotes with
     | some rid =>
       .ok { st with doc := { st.doc with
              layers := modifyLast
                (fun l => { l with strokes := updateFirstStroke rid (fun s => { s with erased := true }) l.strokes })
                st.doc.layers } }
     | none => .ok st)
  else .ok st

/-- The `_load_from_lines` loop over all lines; a raise stops the loop
with the state at that point. -/
def loadCore : LoadState → List String → LoadState × Bool
  | st, [] => (st, true)
  | st, l :: ls =>
    match loadStep st l with
    | .ok st' => loadCore st' ls
    | .error st' => (st', false)

/-- The state `_load_from_lines` starts from: layers cleared, both
counters reset to 1, no open layer, not inside a draw block. Canvas size
and background keep their prior values until directives overwrite them. -/
def resetLoad (d : DocState) : LoadState :=
  { doc := { d with layers := [], layerCounter := 1, strokeCounter := 1 }
    layerOpen := false, inDraw := false, drawId := none, drawPts := [] }

/-- `_load_from_lines` end to end: reset, loop, then the final-cleanup
salvage (`if in_draw and draw_pts: finish_draw_block(..., {})`). The
boolean records whether loading completed without an uncaught
exception; on `false` the document is whatever the loop left behind. -/
def load_from_lines (d : DocState) (lines : List String) : DocState × Bool :=
  let r := loadCore (resetLoad d) lines
  if r.2 = false then (r.1.doc, false)
  else if r.1.inDraw && !r.1.drawPts.isEmpty then
    match finish_draw_block r.1 r.1.drawId r.1.drawPts [] with
    | some st' => (st'.doc, true)
    | none => (r.1.doc, false)
  else (r.1.doc, true)

/-! ## The serializer (`save_inks` body) -/

/-- Round to the nearest integer, ties to even (the rounding of `%.2f`
after scaling by 100; called on non-negative arguments). -/
def roundHalfEven (x : ℚ) : Int :=
  let f := x.floor
  let r := x - (f : ℚ)
  if r > 1 / 2 then f + 1
  else if r < 1 / 2 then f
  else if f % 2 = 0 then f else f + 1

/-- `f"{float(x):.2f}"` on the rational model: sign, then the absolute
value rounded to two decimals. -/
def fmtFix2 (q : ℚ) : String :=
  let n := roundHalfEven (|q| * 100)
  let fpart := (n % 100).toNat
  let fs := if fpart < 10 then "0" ++ toString fpart else toString fpart
  (if q < 0 then "-" else "") ++ toString (n / 100) ++ "." ++ fs

/-- The `move`/`line` lines of a draw block: first point `move`, the
rest `line`, coordinates through `%.2f`. -/
def serPoints (pts : List (ℚ × ℚ)) : List String :=
  match pts with
  | [] => []
  | p :: rest =>
    ("    move " ++ fmtFix2 p.1 ++ " " ++ fmtFix2 p.2) ::
    rest.map (fun p2 => "    line " ++ fmtFix2 p2.1 ++ " " ++ fmtFix2 p2.2)

/-- The closing-brace line with inline style pieces joined by spaces:
`stroke=` when the color is truthy, `fill=` when set, always
`strokeWidth=`. -/
def serCloseLine (s : Stroke) : String :=
  "  \x7d"
  ++ (match s.color with
      | some c => if c = "" then "" else " stroke=" ++ c
      | none => "")
  ++ (match s.fill with
      | some c => if c = "" then "" else " fill=" ++ c
      | none => "")
  ++ " strokeWidth=" ++ toString s.width

/-- Lines written for one stroke: a draw block for a live stroke, a
single `erase ref=<id>` line for an erased one. -/
def serStroke (s : Stroke) : List String :=
  if s.erased = false then
    ("  draw path id=" ++ s.id ++ " \x7b") :: (serPoints s.points ++ [serCloseLine s, ""])
  else ["  erase ref=" ++ s.id]

/-- Lines written for one layer. -/
def serLayer (l : Layer) : List String :=
  ("layer id=" ++ toString l.id ++ " name=\"" ++ l.name ++ "\" visible="
    ++ (if l.visible then "true" else "false") ++ " \x7b")
  :: ((l.strokes.map serStroke).flatten ++ ["\x7d", ""])

/-- The full line list `save_inks` writes for a document (top layer
first). -/
def save_inks_lines (d : DocState) : List String :=
  ["inkscript 1.0", "", "canvas " ++ toString d.width ++ " " ++ toString d.height,
   "background " ++ d.bgColor, ""]
  ++ (d.layers.map serLayer).flatten

/-! ## Document lookups shared by the undo/redo log

`_layer_by_id` and `_find_stroke_by_id` return the first match and the
mutating loops touch exactly that object, so the model updates the first
match in place. -/

/-- `_layer_by_id`: first layer with the given id. -/
def findLayer (lid : Int) : List Layer → Option Layer
  | [] => none
  | l :: rest => if l.id = lid then some l else findLayer lid rest

/-- Update the first layer with the given id (no-op when absent). -/
def updateFirstLayer (lid : Int) (f : Layer → Layer) : List Layer → List Layer
  | [] => []
  | l :: rest => if l.id = lid then f l :: rest else l :: updateFirstLayer lid f rest

/-- Some stroke in the list has the given id. -/
def containsStroke (sid : String) (strokes : List Stroke) : Bool :=
  strokes.any (fun s => s.id = sid)

/-- Remove the first stroke with the given id (undo of `AddStroke`). -/
def removeFirstStroke (sid : String) : List Stroke → List Stroke
  | [] => []
  | s :: rest => if s.id = sid then rest else s :: removeFirstStroke sid rest

/-- Set the erased flag on every stroke with the given id in one layer
(the undo/redo loops for `EraseStrokes` have no `break`). -/
def setErasedAll (b : Bool) (sid : String) (strokes : List Stroke) : List Stroke :=
  strokes.map (fun s => if s.id = sid then { s with erased := b } else s)

/-- First stroke with the given id within one layer. -/
def findStrokeIn (sid : String) : List Stroke → Option Stroke
  | [] => none
  | s :: rest => if s.id = sid then some s else findStrokeIn sid rest

/-- `_find_stroke_by_id`: first stroke with the given id, scanning layers
front to back. -/
def findStrokeGlobal (sid : String) : List Layer → Option Stroke
  | [] => none
  | l :: rest =>
    match findStrokeIn sid l.strokes with
    | some s => some s
    | none => findStrokeGlobal sid rest

/-- All stroke ids of the document, layer by layer (their uniqueness is
the id invariant of §3). -/
def globalIds (L : List Layer) : List String :=
  (L.map (fun l => l.strokes.map Stroke.id)).flatten

/-- Mutate the stroke `_find_stroke_by_id` would return: the first
matching stroke of the first layer containing the id. -/
def updateFirstStrokeGlobal (sid : String) (f : Stroke → Stroke) : List Layer → List Layer
  | [] => []
  | l :: rest =>
    if containsStroke sid l.strokes then
      { l with strokes := updateFirstStroke sid f l.strokes } :: rest
    else l :: updateFirstStrokeGlobal sid f rest

/-! ## Undo/redo log -/

/-- The three action classes of the source (`ActionAddStroke`,
`ActionEraseStrokes`, `ActionMoveStrokes`); there is no fill action — the
fill tool logs an `addStroke`. -/
inductive Action where
  | addStroke (layerId : Int) (stroke : Stroke)
  | eraseStrokes (layerId : Int) (strokeIds : List String)
  | moveStrokes (layerId : Int) (snapshots : List (String × List (ℚ × ℚ) × List (ℚ × ℚ)))
deriving DecidableEq, Repr

/-- The document plus the two history stacks. -/
structure AppState where
  doc : DocState
  undoStack : List Action
  redoStack : List Action
deriving DecidableEq, Repr

/-- `undo()`: pop one action and apply its inverse. An empty stack is a
no-op; an action whose layer (or, for `addStroke`, stroke) is gone is
popped and dropped without touching the redo stack. -/
def undo (st : AppState) : AppState :=
  match st.undoStack with
  | [] => st
  | act :: rest =>
    match act with
    | .addStroke lid s =>
      (match findLayer lid st.doc.layers with
       | none => { st with undoStack := rest }
       | some l =>
         if containsStroke s.id l.strokes then
           { st with
             doc := { st.doc with
               layers := updateFirstLayer lid
                 (fun l2 => { l2 with strokes := removeFirstStroke s.id l2.strokes }) st.doc.layers }
             undoStack := rest
             redoStack := act :: st.redoStack }
         else { st with undoStack := rest })
    | .eraseStrokes lid sids =>
      (match findLayer lid st.doc.layers with
       | none => { st with undoStack := rest }
       | some _ =>
         { st with
           doc := { st.doc with
             layers := updateFirstLayer lid
               (fun l2 => { l2 with
                 strokes := sids.foldl (fun acc sid => setErasedAll false sid acc) l2.strokes })
               st.doc.layers }
           undoStack := rest
           redoStack := act :: st.redoStack })
    | .moveStrokes lid snaps =>
      (match findLayer lid st.doc.layers with
       | none => { st with undoStack := rest }
       | some _ =>
         { st with
           doc := { st.doc with
             layers := snaps.foldl
               (fun L sn => updateFirstStrokeGlobal sn.1 (fun s2 => { s2 with points := sn.2.1 }) L)
               st.doc.layers }
           undoStack := rest
           redoStack := act :: st.redoStack })

/-- `redo()`: the mirror of `undo`. -/
def redo (st : AppState) : AppState :=
  match st.redoStack with
  | [] => st
  | act :: rest =>
    match act with
    | .addStroke lid s =>
      (match findLayer lid st.doc.layers with
       | none => { st with redoStack := rest }
       | some _ =>
         { st with
           doc := { st.doc with
             layers := updateFirstLayer lid
               (fun l2 => { l2 with strokes := l2.strokes ++ [s] }) st.doc.layers }
           redoStack := rest
           undoStack := act :: st.undoStack })
    | .eraseStrokes lid sids =>
      (match findLayer lid st.doc.layers with
       | none => { st with redoStack := rest }
       | some _ =>
         { st with
           doc := { st.doc with
             layers := updateFirstLayer lid
               (fun l2 => { l2 with
                 strokes := sids.foldl (fun acc sid => setErasedAll true sid acc) l2.strokes })
               st.doc.layers }
           redoStack := rest
           undoStack := act :: st.undoStack })
    | .moveStrokes lid snaps =>
      (match findLayer lid st.doc.layers with
       | none => { st with redoStack := rest }
       | some _ =>
         { st with
           doc := { st.doc with
             layers := snaps.foldl
               (fun L sn => updateFirstStrokeGlobal sn.1 (fun s2 => { s2 with points := sn.2.2 }) L)
               st.doc.layers }
           redoStack := rest
           undoStack := act :: st.undoStack })

/-! ## Forward editing operations

The three operation kinds the editor implements, parameterised by the
target layer id (the current layer's id at gesture time). Each successful
action pushes one log entry and clears the redo stack. -/

inductive EditOp where
  | addStroke (layerId : Int) (stroke : Stroke)
  | eraseStrokes (layerId : Int) (path : List (ℚ × ℚ)) (eraserWidth : ℚ)
  | moveStrokes (layerId : Int) (snapshots : List (String × List (ℚ × ℚ) × List (ℚ × ℚ)))
deriving DecidableEq, Repr

/-- Apply a forward operation: append the committed stroke
(brush/shape pointer-up), run the eraser pass, or set moved strokes'
points to their new positions (the recorded snapshots carry
`(id, old points, new points)`). -/
def applyOp : EditOp → AppState → AppState
  | .addStroke lid s, st =>
    { st with
      doc := { st.doc with
        layers := updateFirstLayer lid (fun l => { l with strokes := l.strokes ++ [s] }) st.doc.layers }
      undoStack := .addStroke lid s :: st.undoStack
      redoStack := [] }
  | .eraseStrokes lid path w, st =>
    (match findLayer lid st.doc.layers with
     | none => st
     | some l =>
       if path = [] then st
       else
         let ids := (eraserPass path (w / 2) l.strokes).2
         let layers' := updateFirstLayer lid
           (fun l2 => { l2 with strokes := (eraserPass path (w / 2) l2.strokes).1 }) st.doc.layers
         if ids = [] then { st with doc := { st.doc with layers := layers' } }
         else
           { st with
             doc := { st.doc with layers := layers' }
             undoStack := .eraseStrokes lid ids :: st.undoStack
             redoStack := [] })
  | .moveStrokes lid snaps, st =>
    { st with
      doc := { st.doc with
        layers := snaps.foldl
          (fun L sn => updateFirstStrokeGlobal sn.1 (fun s2 => { s2 with points := sn.2.2 }) L)
          st.doc.layers }
      undoStack := .moveStrokes lid snaps :: st.undoStack
      redoStack := [] }

/-- Success-plus-invariant side conditions under which an operation's log
entry is a faithful inverse description: the target layer exists; an added
stroke's id is fresh in it; the eraser hit something and the layer's
stroke ids are distinct (document invariant); move snapshots name
distinct, existing strokes whose current points are the recorded old
points, with document-wide id uniqueness. -/
def opOk : EditOp → AppState → Bool
  | .addStroke lid s, st =>
    (match findLayer lid st.doc.layers with
     | some l => !containsStroke s.id l.strokes
     | none => false)
  | .eraseStrokes lid path w, st =>
    (match findLayer lid st.doc.layers with
     | some l =>
       !path.isEmpty && !(eraserPass path (w / 2) l.strokes).2.isEmpty
         && decide (l.strokes.map Stroke.id).Nodup
     | none => false)
  | .moveStrokes lid snaps, st =>
    (findLayer lid st.doc.layers).isSome
    && decide (snaps.map (fun sn => sn.1)).Nodup
    && decide (globalIds st.doc.layers).Nodup
    && snaps.all (fun sn =>
         match findStrokeGlobal sn.1 st.doc.layers with
         | some s => decide (s.points = sn.2.1)
         | none => false)

/-! ## The fill tool (`_apply_fill_at`) -/

/-- The reversed scan of `_apply_fill_at` over one layer's strokes: the
last stroke (topmost) that is live, has at least three points and
contains the point gets its fill set; the updated list and updated stroke
are returned. -/
def fillScan (x y : ℚ) (c : String) : List Stroke → Option (List Stroke × Stroke)
  | [] => none
  | s :: rest =>
    match fillScan x y c rest with
    | some (rest', t) => some (s :: rest', t)
    | none =>
      if !s.erased && !s.points.isEmpty && decide (s.points.length ≥ 3)
          && point_in_polygon (x, y) s.points then
        some (({ s with fill := some c } :: rest), { s with fill := some c })
      else none

/-- `_apply_fill_at`: set the fill of the hit stroke and log the change
as an `ActionAddStroke` of the (already mutated) stroke — the source's
"(coarse)" undo entry. -/
def apply_fill_at (x y : ℚ) (fillColor : String) (lid : Int) (st : AppState) : AppState :=
  match findLayer lid st.doc.layers with
  | none => st
  | some l =>
    match fillScan x y fillColor l.strokes with
    | none => st
    | some (strokes', s') =>
      { st with
        doc := { st.doc with
          layers := updateFirstLayer lid (fun l2 => { l2 with strokes := strokes' }) st.doc.layers }
        undoStack := .addStroke lid s' :: st.undoStack
        redoStack := [] }

/-! ## Histories of undo/redo calls -/

inductive HistOp where
  | u
  | r
deriving DecidableEq, Repr

/-- Run a sequence of `undo()`/`redo()` calls. -/
def runHist : List HistOp → AppState → AppState
  | [], st => st
  | .u :: t, st => runHist t (undo st)
  | .r :: t, st => runHist t (redo st)

/-- The frame of a layer: everything but its strokes. -/
def layerSig (l : Layer) : Int × String × Bool := (l.id, l.name, l.visible)

/-! ## The standalone renderer (`inks_renderer.py`)

The colour reader `parse_color`, the editor's `_hex_to_rgb`, and the
draw-path block reader `_parse_draw` with its brace-tail and look-ahead
handling of style tokens. -/

/-- Hexadecimal digit value, case-insensitive. -/
def hexVal? (c : Char) : Option ℕ :=
  if isDigitCh c then some (c.toNat - '0'.toNat)
  else if decide ('a' ≤ c) && decide (c ≤ 'f') then some (c.toNat - 'a'.toNat + 10)
  else if decide ('A' ≤ c) && decide (c ≤ 'F') then some (c.toNat - 'A'.toNat + 10)
  else none

/-- `int(two hex chars, 16)` (restricted to plain digit pairs). -/
def hexByte? (c1 c2 : Char) : Option ℕ :=
  match hexVal? c1, hexVal? c2 with
  | some a, some b => some (16 * a + b)
  | _, _ => none

/-- The editor's `_hex_to_rgb`: strip leading `#`, accept six hex digits
as three bytes or three hex digits with each one doubled; other lengths
fall back to black; a non-hex digit raises (`none`). -/
def hex_to_rgb (h : String) : Option (ℕ × ℕ × ℕ) :=
  if h = "" then some (0, 0, 0)
  else
    match h.toList.dropWhile (fun c => c = '#') with
    | [a, b, c, d, e, f] =>
      (match hexByte? a b, hexByte? c d, hexByte? e f with
       | some r, some g, some bl => some (r, g, bl)
       | _, _, _ => none)
    | [a, b, c] =>
      (match hexByte? a a, hexByte? b b, hexByte? c c with
       | some r, some g, some bl => some (r, g, bl)
       | _, _, _ => none)
    | _ => some (0, 0, 0)

/-- Outcome of the renderer's `parse_color` on a string: a `ValueError`
(`invalid`), the literal `"none"`, or an RGB triple. -/
inductive ColorResult where
  | invalid
  | noColor
  | rgb (r g b : ℕ)
deriving DecidableEq, Repr

/-- The renderer's `parse_color`: only `"none"` or a 7-character
`#RRGGBB` string is accepted; everything else raises. -/
def parse_color (c : String) : ColorResult :=
  if c = "none" then .noColor
  else
    match c.toList with
    | ['#', a, b, c2, d, e, f] =>
      (match hexByte? a b, hexByte? c2 d, hexByte? e f with
       | some r, some g, some bl => .rgb r g bl
       | _, _, _ => .invalid)
    | _ => .invalid

/-- The renderer's `parse_attr_tokens`: keep `key=value` tokens, values
taken verbatim. -/
def parse_attr_tokens (tokens : List String) : List (String × String) :=
  tokens.foldl
    (fun acc t =>
      match splitFirstEq t with
      | some (k, v) => acc ++ [(k, v)]
      | none => acc) []

/-- The reserved keywords of the look-ahead check in `_parse_draw`. -/
def reservedWords : List String :=
  ["draw", "set", "layer", "transform", "erase", "canvas", "background"]

/-- The look-ahead after a lone closing brace: skip blank and comment
lines; consume the first substantive line as the style line exactly when
it contains `=` and its first token is not a reserved keyword; otherwise
consume nothing. -/
def rLookahead : List String → Option (List String × List String)
  | [] => none
  | l :: rest =>
    let nxt := pyStrip l
    if nxt = "" || strStartsWith nxt "#" then rLookahead rest
    else if strContainsChar '=' nxt && !(reservedWords.contains (headTokenD nxt)) then
      some (splitWs nxt, rest)
    else none

/-- One command line inside a renderer path block: `move`/`line` with two
floats, `curve` (≥ 7 tokens) sampled at its last control point, anything
else skipped. -/
def rPathCmd (pts : List (ℚ × ℚ)) (stripped : String) : List (ℚ × ℚ) :=
  match splitWs stripped with
  | [] => pts
  | t0 :: restTok =>
    let cmdname := toLowerStr t0
    if cmdname = "move" || cmdname = "line" then
      match restTok with
      | a :: b :: _ =>
        (match pyFloat a, pyFloat b with
         | some x, some y => pts ++ [(x, y)]
         | _, _ => pts)
      | _ => pts
    else if cmdname = "curve" then
      if 7 ≤ (t0 :: restTok).length then
        match (t0 :: restTok).reverse with
        | ystr :: xstr :: _ =>
          (match pyFloat xstr, pyFloat ystr with
           | some x, some y => pts ++ [(x, y)]
           | _, _ => pts)
        | _ => pts
      else pts
    else pts

/-- The line loop of `_parse_draw` for `path` blocks: collect points
until the closing brace, take inline style tokens off the brace line, or
fall back to the look-ahead; returns the points, the style tokens and the
unconsumed lines. -/
def rParsePath : List String → List (ℚ × ℚ) → List (ℚ × ℚ) × List String × List String
  | [], pts => (pts, [], [])
  | l :: rest, pts =>
    let stripped := pyStrip l
    if stripped = "" || strStartsWith stripped "#" then rParsePath rest pts
    else if strStartsWith stripped "\x7d" then
      let trailing := pyStrip (strDrop stripped 1)
      if trailing = "" then
        match rLookahead rest with
        | some (ts, rem) => (pts, ts, rem)
        | none => (pts, [], rest)
      else (pts, splitWs trailing, rest)
    else rParsePath rest (rPathCmd pts stripped)

/-- The renderer's stroke-colour resolution for a path: an explicit
`stroke=` token goes through `parse_color` (which may raise), otherwise
the layer's running style applies. -/
def rResolveStroke (styleTokens : List String) (layerStroke : Option (ℕ × ℕ × ℕ)) : ColorResult :=
  match styleGet (parse_attr_tokens styleTokens) "stroke" with
  | some v => parse_color v
  | none =>
    match layerStroke with
    | some t => .rgb t.1 t.2.1 t.2.2
    | none => .noColor

/-- The renderer's width resolution for a path: an explicit
`strokeWidth=` token goes through `int(...)` (which may raise), otherwise
the layer's running width applies. -/
def rResolveWidth (styleTokens : List String) (layerWidth : Int) : Option Int :=
  match styleGet (parse_attr_tokens styleTokens) "strokeWidth" with
  | some v => pyInt v
  | none => some layerWidth

/-! ## Characterization helpers and concrete inputs -/

/-- What the eraser pass does to one stroke. -/
def hitMark (path : List (ℚ × ℚ)) (rad : ℚ) (s : Stroke) : Stroke :=
  if !s.erased && strokeHit path rad s.points then { s with erased := true } else s

/-- The whole-document update that `updateFirstStrokeGlobal` performs
when stroke ids are globally unique: update every stroke with the id. -/
def gmapStroke (sid : String) (f : Stroke → Stroke) (L : List Layer) : List Layer :=
  L.map (fun l => { l with strokes := l.strokes.map (fun s => if s.id = sid then f s else s) })

/-- First move snapshot naming a given stroke id. -/
def findSnap (sid : String) (snaps : List (String × List (ℚ × ℚ) × List (ℚ × ℚ))) :
    Option (String × List (ℚ × ℚ) × List (ℚ × ℚ)) :=
  snaps.find? (fun sn => sn.1 = sid)

/-- The id the final-cleanup salvage gives the unterminated block. -/
def salvageSid (st : LoadState) : String :=
  resolveSid st.drawId st.doc.strokeCounter

/-- Per-layer counter bound: the layer id is below the layer counter and
every numeric `stroke_<n>` suffix in it is below the stroke counter. -/
def layerInv (lc sc : Int) (l : Layer) : Prop :=
  l.id < lc ∧ ∀ s ∈ l.strokes, ∀ k : Int, strokeSuffix s.id = some k → k < sc

/-- The counter bounds the loader maintains over every layer. -/
def docCounterInv (d : DocState) : Prop :=
  ∀ l ∈ d.layers, layerInv d.layerCounter d.strokeCounter l

/-- A document whose only stroke is erased (with points, colour and
width still attached), for the save/reload round trip. -/
def docErasedC1 : DocState :=
  { width := 1000, height := 700, bgColor := "#0b0d12"
    layers := [{ id := 1, name := "Layer 1", visible := true
                 strokes := [{ id := "stroke_1", color := some "#ffffff", width := 3
                               points := [(1, 2)], erased := true, fill := none }] }]
    layerCounter := 2, strokeCounter := 2 }

/-- An input on which loading raises: `strokeWidth=abc` makes
`int(float("abc"))` fail inside `finish_draw_block`, after the document
has already been cleared and a layer registered. -/
def failingLinesC3 : List String :=
  ["inkscript 1.0", "layer id=5 \x7b", "draw path id=stroke_1 \x7b", "move 1 2",
   "\x7d strokeWidth=abc"]

/-- The counter-monotonicity demo file of the spec: layer id 12 holding
stroke id `stroke_77`. -/
def demoLines77 : List String :=
  ["inkscript 1.0", "layer id=12 \x7b", "draw path id=stroke_77 \x7b", "move 1 2",
   "\x7d stroke=#ffffff strokeWidth=3", "\x7d"]

/-- Brace-tail variant: style tokens inline after the closing brace. -/
def editorLinesA : List String :=
  ["inkscript 1.0", "layer id=1 \x7b", "draw path id=stroke_1 \x7b", "move 1 2",
   "line 3 4", "\x7d stroke=#ff0000 strokeWidth=4", "\x7d"]

/-- Look-ahead variant: the brace stands alone, the same style tokens on
the next line. -/
def editorLinesB : List String :=
  ["inkscript 1.0", "layer id=1 \x7b", "draw path id=stroke_1 \x7b", "move 1 2",
   "line 3 4", "\x7d", "stroke=#ff0000 strokeWidth=4", "\x7d"]

/-- A one-layer document holding a white triangle, with empty history. -/
def fillDemoState : AppState :=
  { doc := { width := 1000, height := 700, bgColor := "#0b0d12"
             layers := [{ id := 1, name := "Layer 1", visible := true
                          strokes := [{ id := "stroke_1", color := some "#ffffff", width := 3
                                        points := [(0, 0), (10, 0), (0, 10)], erased := false
                                        fill := none }] }]
             layerCounter := 2, strokeCounter := 2 }
    undoStack := [], redoStack := [] }

/-- A fresh stroke for the add-stroke witness. -/
def demoStroke9 : Stroke :=
  { id := "stroke_9", color := some "#ffffff", width := 3, points := [(1, 1)]
    erased := false, fill := none }

/-- The state a `loadStep` outcome leaves the application in: the new
state on success, the state at the raise point on an exception. -/
def exceptState : Except LoadState LoadState → LoadState
  | .ok st => st
  | .error st => st

/-! ## Eraser-pass characterizations -/

theorem eraserPass_fst (path : List (ℚ × ℚ)) (rad : ℚ) (l : List Stroke) :
    (eraserPass path rad l).1 = l.map (hitMark path rad) := by
  induction l with
  | nil => rfl
  | cons s rest ih =>
    by_cases h : (!s.erased && strokeHit path rad s.points) = true
    · simp [eraserPass, hitMark, h, ih]
    · simp [eraserPass, hitMark, h, ih]

theorem eraserPass_snd (path : List (ℚ × ℚ)) (rad : ℚ) (l : List Stroke) :
    (eraserPass path rad l).2 =
      (l.filter (fun s => !s.erased && strokeHit path rad s.points)).map Stroke.id := by
  induction l with
  | nil => rfl
  | cons s rest ih =>
    by_cases h : (!s.erased && strokeHit path rad s.points) = true
    · simp [eraserPass, h, ih, List.filter_cons]
    · simp [eraserPass, h, ih, List.filter_cons]

/-- C7 counterexample input: in exact arithmetic the two edges of the
degenerate two-vertex polygon `[(0,0),(1,1)]` produce crossing thresholds
that differ by `ε²/(1-ε²)`, and this point lies between them. -/
theorem two_vertex_polygon_classified_inside :
    point_in_polygon ((999999999998 : ℚ) / 1999999999998, 1 / 2) [(0, 0), (1, 1)] = true := by
  decide

/-- C7: amended degenerate clause — with fewer than two vertices the
ray-casting test is always `false` (a single vertex yields one horizontal
self-edge, which never crosses) — together with the square
classifications: `(5,5)` inside, `(15,5)` outside
`[(0,0),(10,0),(10,10),(0,10)]`. -/
theorem point_in_polygon_degenerate_and_square :
    (∀ (p : ℚ × ℚ) (poly : List (ℚ × ℚ)), poly.length < 2 → point_in_polygon p poly = false)
    ∧ point_in_polygon (5, 5) [(0, 0), (10, 0), (10, 10), (0, 10)] = true
    ∧ point_in_polygon (15, 5) [(0, 0), (10, 0), (10, 10), (0, 10)] = false := by
  refine ⟨?_, by decide, by decide⟩
  intro p poly h
  match poly, h with
  | [], _ => rfl
  | [v], _ => simp [point_in_polygon, pipEdge, List.range_succ]

/-- Witness for the degenerate clause of
`point_in_polygon_degenerate_and_square` at a one-vertex input. -/
theorem point_in_polygon_degenerate_and_square_witness :
    ([((1 : ℚ), 2)] : List (ℚ × ℚ)).length < 2
    ∧ point_in_polygon (0, 0) [((1 : ℚ), 2)] = false :=
  ⟨by decide, point_in_polygon_degenerate_and_square.1 (0, 0) [((1 : ℚ), 2)] (by decide)⟩

/-- C8: the eraser marks a stroke as hit exactly when some path point and
some stroke point lie within the radius (squared distances; for `r ≥ 0`
this is `distance ≤ r`, boundary inclusive). With radius 5, a path point
at the origin hits a stroke point at `(3,4)` (distance exactly 5) and
misses one at `(10,10)`; the collected ids are exactly the live strokes
whose point sets come within the radius. -/
theorem eraser_hit_test_characterization :
    (∀ (path : List (ℚ × ℚ)) (r : ℚ) (pts : List (ℚ × ℚ)),
        strokeHit path r pts = true ↔
          ∃ p ∈ path, ∃ q ∈ pts,
            (p.1 - q.1) * (p.1 - q.1) + (p.2 - q.2) * (p.2 - q.2) ≤ r * r)
    ∧ strokeHit [(0, 0)] 5 [(3, 4)] = true
    ∧ strokeHit [(0, 0)] 5 [(10, 10)] = false
    ∧ (∀ (path : List (ℚ × ℚ)) (r : ℚ) (strokes : List Stroke),
        (eraserPass path r strokes).2 =
          (strokes.filter (fun s => !s.erased && strokeHit path r s.points)).map Stroke.id) := by
  refine ⟨?_, by decide, by decide, fun path r strokes => eraserPass_snd path r strokes⟩
  intro path r pts
  simp [strokeHit, List.any_eq_true]

/-- C9 counterexample: the renderer's `parse_color` rejects the 3-digit
form outright (`ValueError`), so it does not agree with `#ffffff`. -/
theorem renderer_rejects_short_hex :
    parse_color "#fff" = ColorResult.invalid
    ∧ parse_color "#ffffff" = ColorResult.rgb 255 255 255
    ∧ parse_color "#fff" ≠ parse_color "#ffffff" := by decide

/-- C1 (code bug): serializing a document whose stroke is erased writes
only the `erase ref=` line — no draw block — so reloading the serialized
text yields a layer with no strokes at all: the erase does not survive
save/reload, the stroke's data is gone. -/
theorem erased_stroke_lost_on_reload :
    (save_inks_lines docErasedC1).contains "  erase ref=stroke_1" = true
    ∧ (save_inks_lines docErasedC1).contains "  draw path id=stroke_1 \x7b" = false
    ∧ ((load_from_lines defaultDoc (save_inks_lines docErasedC1)).1.layers.map Layer.strokes)
        = [[]]
    ∧ (load_from_lines defaultDoc (save_inks_lines docErasedC1)).2 = true := by decide

/-- C3 counterexample: on `failingLinesC3` loading fails (the width parse
raises) and the in-memory document is not what it was before the load —
the loader cleared it and had already registered layer 5. -/
theorem failed_load_mutates_document :
    (load_from_lines defaultDoc failingLinesC3).2 = false
    ∧ (load_from_lines defaultDoc failingLinesC3).1 ≠ defaultDoc := by decide

/-- C3 amended: a load that fails during parsing leaves, for every prior
document, the cleared-and-partially-rebuilt state — here layer 5 with no
strokes and counters `(6, 1)` — with canvas and background keeping their
prior values; only the layers and counters were reset in place. -/
theorem failed_load_leaves_partial_state (d : DocState) :
    load_from_lines d failingLinesC3 =
      ({ d with layers := [{ id := 5, name := "Layer 5", visible := true, strokes := [] }]
                layerCounter := 6, strokeCounter := 1 }, false) := rfl

/-- C6 counterexample: EOF inside an open draw block with no points
collected — the block is discarded entirely (the salvage is guarded by
`draw_pts`), not finalized as a stroke with the empty point list. -/
theorem unterminated_empty_block_discarded :
    ((load_from_lines defaultDoc ["layer id=1 \x7b", "draw path id=stroke_5 \x7b"]).1.layers.map
        Layer.strokes) = [[]]
    ∧ (load_from_lines defaultDoc ["layer id=1 \x7b", "draw path id=stroke_5 \x7b"]).2 = true := by
  decide

/-- C9 amended: the editor's `_hex_to_rgb` accepts both `#RRGGBB` and
`#RGB` (each channel digit doubled), hex digits case-insensitive, with
`#fff` and `#ffffff` giving the same triple; the CLI renderer's
`parse_color` instead accepts only the 7-character form and raises on
`#fff`. -/
theorem color_parsing_forms :
    (∀ c1 c2 c3 : Char, (hexVal? c1).isSome = true → (hexVal? c2).isSome = true →
        (hexVal? c3).isSome = true →
        hex_to_rgb (⟨['#', c1, c2, c3]⟩ : String)
          = hex_to_rgb (⟨['#', c1, c1, c2, c2, c3, c3]⟩ : String))
    ∧ hex_to_rgb "#fff" = some (255, 255, 255)
    ∧ hex_to_rgb "#ffffff" = some (255, 255, 255)
    ∧ hex_to_rgb "#AbCdEf" = hex_to_rgb "#abcdef"
    ∧ hex_to_rgb "#aBc" = hex_to_rgb "#abc"
    ∧ parse_color "#ffffff" = ColorResult.rgb 255 255 255
    ∧ parse_color "#FFFFFF" = ColorResult.rgb 255 255 255
    ∧ parse_color "#fff" = ColorResult.invalid := by
  refine ⟨?_, by decide, by decide, by decide, by decide, by decide, by decide, by decide⟩
  intro c1 c2 c3 h1 h2 h3
  have n1 : (c1 = '#') = False := by
    apply eq_false
    intro he
    rw [he] at h1
    exact absurd h1 (by decide)
  have hne : (⟨['#', c1, c2, c3]⟩ : String) ≠ "" := by
    intro h
    exact absurd (congrArg String.data h) (by simp)
  have hne2 : (⟨['#', c1, c1, c2, c2, c3, c3]⟩ : String) ≠ "" := by
    intro h
    exact absurd (congrArg String.data h) (by simp)
  rw [hex_to_rgb, hex_to_rgb, if_neg hne, if_neg hne2]
  simp [String.toList, List.dropWhile, n1]

/-- Witness for the duplication law of `color_parsing_forms` at the
digits `a`, `b`, `c`. -/
theorem color_parsing_forms_witness :
    hex_to_rgb (⟨['#', 'a', 'b', 'c']⟩ : String)
      = hex_to_rgb (⟨['#', 'a', 'a', 'b', 'b', 'c', 'c']⟩ : String) :=
  color_parsing_forms.1 'a' 'b' 'c' (by decide) (by decide) (by decide)

/-- C6 amended: when the line loop ends inside an open draw block with at
least one collected point, `load_from_lines` finalizes a stroke carrying
exactly the collected points and default style — colour `#000000`, width
2, no fill — into the open (last) layer, advancing the stroke counter
past the id's numeric suffix; a block with no collected points is
discarded instead. -/
theorem unterminated_draw_salvage (d : DocState) (lines : List String) (st : LoadState)
    (hrun : loadCore (resetLoad d) lines = (st, true))
    (hdraw : st.inDraw = true) (hpts : st.drawPts ≠ [])
    (hopen : st.layerOpen = true) :
    load_from_lines d lines =
      ({ st.doc with
         layers := modifyLast (fun l => { l with strokes := l.strokes ++
           [{ id := salvageSid st, color := some "#000000", width := 2
              points := st.drawPts, erased := false, fill := none }] }) st.doc.layers
         strokeCounter :=
           match strokeSuffix (salvageSid st) with
           | some n => if n ≥ st.doc.strokeCounter then n + 1 else st.doc.strokeCounter
           | none => st.doc.strokeCounter }, true) := by
  have hfdb : finish_draw_block st st.drawId st.drawPts [] =
      some { st with doc := { st.doc with
        layers := modifyLast (fun l => { l with strokes := l.strokes ++
          [{ id := salvageSid st, color := some "#000000", width := 2
             points := st.drawPts, erased := false, fill := none }] }) st.doc.layers
        strokeCounter :=
          match strokeSuffix (salvageSid st) with
          | some n => if n ≥ st.doc.strokeCounter then n + 1 else st.doc.strokeCounter
          | none => st.doc.strokeCounter } } := by
    unfold finish_draw_block
    rw [hopen]
    rfl
  unfold load_from_lines
  rw [hrun]
  rw [if_neg (by simp : ¬((st, true).2 = false))]
  rw [if_pos (by simp [hdraw, hpts] : ((st, true).1.inDraw && !(st, true).1.drawPts.isEmpty) = true)]
  rw [hfdb]

/-- Witness for `unterminated_draw_salvage`: a file ending inside
`draw path {` after `move 1 2` loads as a one-point default-styled
stroke. -/
theorem unterminated_draw_salvage_witness :
    load_from_lines defaultDoc ["layer id=1 \x7b", "draw path \x7b", "move 1 2"] =
      ({ width := 1000, height := 700, bgColor := "#0b0d12"
         layers := [{ id := 1, name := "Layer 1", visible := true
                      strokes := [{ id := "stroke_1", color := some "#000000", width := 2
                                    points := [(1, 2)], erased := false, fill := none }] }]
         layerCounter := 2, strokeCounter := 2 }, true) := by
  have h := unterminated_draw_salvage defaultDoc
    ["layer id=1 \x7b", "draw path \x7b", "move 1 2"]
    { doc := { width := 1000, height := 700, bgColor := "#0b0d12"
               layers := [{ id := 1, name := "Layer 1", visible := true, strokes := [] }]
               layerCounter := 2, strokeCounter := 1 }
      layerOpen := true, inDraw := true, drawId := none, drawPts := [(1, 2)] }
    (by decide) rfl (by decide) rfl
  exact h.trans (by decide)

/-! ## Counter invariant of the loader -/

theorem layerInv_mono {lc sc lc' sc' : Int} {l : Layer} (h1 : lc ≤ lc') (h2 : sc ≤ sc')
    (h : layerInv lc sc l) : layerInv lc' sc' l :=
  ⟨lt_of_lt_of_le h.1 h1, fun s hs k hk => lt_of_lt_of_le (h.2 s hs k hk) h2⟩

theorem modifyLast_pres {P : Layer → Prop} {f : Layer → Layer}
    (hf : ∀ l, P l → P (f l)) :
    ∀ (L : List Layer), (∀ l ∈ L, P l) → ∀ l' ∈ modifyLast f L, P l' := by
  intro L
  induction L with
  | nil => intro _ l' hl'; simp [modifyLast] at hl'
  | cons a rest ih =>
    intro h l' hl'
    cases rest with
    | nil =>
      simp [modifyLast] at hl'
      subst hl'
      exact hf a (h a (by simp))
    | cons b rest' =>
      rw [modifyLast] at hl'
      rcases List.mem_cons.mp hl' with h1 | h1
      · subst h1; exact h l' (by simp)
      · exact ih (fun x hx => h x (List.mem_cons_of_mem a hx)) l' h1

theorem mem_updateFirstStroke {sid : String} {f : Stroke → Stroke} :
    ∀ {xs : List Stroke} {s' : Stroke}, s' ∈ updateFirstStroke sid f xs →
      s' ∈ xs ∨ ∃ s ∈ xs, s' = f s := by
  intro xs
  induction xs with
  | nil => intro s' h; simp [updateFirstStroke] at h
  | cons a rest ih =>
    intro s' h
    rw [updateFirstStroke] at h
    by_cases ha : a.id = sid
    · rw [if_pos ha] at h
      rcases List.mem_cons.mp h with h1 | h1
      · exact Or.inr ⟨a, by simp, h1⟩
      · exact Or.inl (List.mem_cons_of_mem a h1)
    · rw [if_neg ha] at h
      rcases List.mem_cons.mp h with h1 | h1
      · exact Or.inl (by simp [h1])
      · rcases ih h1 with h2 | ⟨s, hs, he⟩
        · exact Or.inl (List.mem_cons_of_mem a h2)
        · exact Or.inr ⟨s, List.mem_cons_of_mem a hs, he⟩

/-- The counter update of `finish_draw_block` never decreases the stroke
counter and bounds the settled id's suffix. -/
theorem counterUpdate_facts (sid : String) (c : Int) :
    c ≤ (match strokeSuffix sid with
         | some n => if n ≥ c then n + 1 else c
         | none => c)
    ∧ ∀ k : Int, strokeSuffix sid = some k →
        k < (match strokeSuffix sid with
             | some n => if n ≥ c then n + 1 else c
             | none => c) := by
  constructor
  · split
    next n _ =>
      by_cases hnc : n ≥ c
      · rw [if_pos hnc]; omega
      · rw [if_neg hnc]
    next => exact le_refl c
  · intro k hk
    rw [hk]
    show k < if k ≥ c then k + 1 else c
    split <;> omega

theorem finish_draw_block_inv {st st' : LoadState} {sid? : Option String}
    {pts : List (ℚ × ℚ)} {style : List (String × String)}
    (hok : finish_draw_block st sid? pts style = some st')
    (h : docCounterInv st.doc) :
    docCounterInv st'.doc ∧ st.doc.layerCounter ≤ st'.doc.layerCounter
      ∧ st.doc.strokeCounter ≤ st'.doc.strokeCounter := by
  unfold finish_draw_block at hok
  by_cases hopen : st.layerOpen = false
  · rw [if_pos hopen] at hok
    cases hok
    exact ⟨h, le_refl _, le_refl _⟩
  · rw [if_neg hopen] at hok
    split at hok
    · cases hok
    next w hw =>
      cases hok
      have hfacts := counterUpdate_facts (resolveSid sid? st.doc.strokeCounter) st.doc.strokeCounter
      refine ⟨?_, le_refl _, hfacts.1⟩
      intro l' hl'
      refine modifyLast_pres ?_ st.doc.layers ?_ l' hl'
      · intro l hl
        refine ⟨hl.1, ?_⟩
        intro s hs k hk
        rcases List.mem_append.mp hs with hs1 | hs1
        · exact hl.2 s hs1 k hk
        · have hsid : s.id = resolveSid sid? st.doc.strokeCounter := by
            have : s = { id := resolveSid sid? st.doc.strokeCounter
                         color := some (pyOrStr (styleGet style "stroke")
                           (pyOrStr (styleGet style "color") "#000000"))
                         width := w, points := pts, erased := false
                         fill := styleGet style "fill" } := by simpa using hs1
            rw [this]
          rw [hsid] at hk
          exact hfacts.2 k hk
      · intro l hl
        exact layerInv_mono (le_refl _) hfacts.1 (h l hl)

/-- Each loader step preserves the counter bounds — on the state it
hands on normally and on the state an exception leaves behind alike —
and never decreases either counter. -/
theorem loadStep_inv (st : LoadState) (line : String) (h : docCounterInv st.doc) :
    docCounterInv (exceptState (loadStep st line)).doc := by
  simp only [loadStep]
  repeat' split
  all_goals dsimp only [exceptState]
  all_goals first
    | exact h
    | (rename_i st2 heq
       exact (finish_draw_block_inv heq h).1)
    | -- erase ref: only an erased flag flips, ids are untouched
      (intro l' hl'
       refine modifyLast_pres ?_ st.doc.layers h l' hl'
       intro l hl
       refine ⟨hl.1, ?_⟩
       intro s hs k hk
       rcases mem_updateFirstStroke hs with hs1 | ⟨s0, hs0, he⟩
       · exact hl.2 s hs1 k hk
       · rw [he] at hk
         exact hl.2 s0 hs0 k hk)
    | -- layer header: a fresh empty layer is appended, the counter moves past its id
      (intro l' hl'
       rcases List.mem_append.mp hl' with hl1 | hl1
       · refine layerInv_mono ?_ (le_refl _) (h l' hl1)
         try dsimp only []
         omega
       · rcases List.mem_singleton.mp hl1 with rfl
         refine ⟨?_, ?_⟩
         · try dsimp only []
           omega
         · intro s hs k hk
           simp at hs)

theorem loadCore_inv : ∀ (lines : List String) (st : LoadState),
    docCounterInv st.doc → docCounterInv (loadCore st lines).1.doc := by
  intro lines
  induction lines with
  | nil => intro st h; exact h
  | cons l ls ih =>
    intro st h
    have hstep := loadStep_inv st l h
    unfold loadCore
    cases heq : loadStep st l with
    | ok st' =>
      rw [heq] at hstep
      exact ih st' hstep
    | error st' =>
      rw [heq] at hstep
      exact hstep

theorem resetLoad_inv (d : DocState) : docCounterInv (resetLoad d).doc := by
  intro l hl
  simp [resetLoad] at hl

theorem load_from_lines_inv (d : DocState) (lines : List String) :
    docCounterInv (load_from_lines d lines).1 := by
  have h1 := loadCore_inv lines (resetLoad d) (resetLoad_inv d)
  simp only [load_from_lines]
  repeat' split
  all_goals first
    | exact h1
    | (rename_i st2 heq
       exact (finish_draw_block_inv heq h1).1)

/-- C5: after parsing any input, every layer id in the document is
strictly below the layer counter, and every numeric suffix `n` of a
stroke id of the form `stroke_<n>` is strictly below the stroke counter —
so ids handed out afterwards (always `layerCounter` resp.
`stroke_<strokeCounter>`) cannot collide with loaded ones. -/
theorem load_counter_monotonicity (d : DocState) (lines : List String) :
    (∀ l ∈ (load_from_lines d lines).1.layers, l.id < (load_from_lines d lines).1.layerCounter)
    ∧ (∀ l ∈ (load_from_lines d lines).1.layers, ∀ s ∈ l.strokes, ∀ k : Int,
        strokeSuffix s.id = some k → k < (load_from_lines d lines).1.strokeCounter) := by
  have h := load_from_lines_inv d lines
  exact ⟨fun l hl => (h l hl).1, fun l hl s hs k hk => (h l hl).2 s hs k hk⟩

/-- Witness for `load_counter_monotonicity` on the spec's demo file:
after loading layer id 12 with stroke id `stroke_77`, the counters are
strictly beyond 12 and 77. -/
theorem load_counter_monotonicity_witness :
    (77 : Int) < (load_from_lines defaultDoc demoLines77).1.strokeCounter
    ∧ (12 : Int) < (load_from_lines defaultDoc demoLines77).1.layerCounter := by
  have h := load_counter_monotonicity defaultDoc demoLines77
  constructor
  · exact h.2
      { id := 12, name := "Layer 12", visible := true
        strokes := [{ id := "stroke_77", color := some "#ffffff", width := 3
                      points := [(1, 2)], erased := false, fill := none }] }
      (by decide)
      { id := "stroke_77", color := some "#ffffff", width := 3
        points := [(1, 2)], erased := false, fill := none }
      (by decide) 77 (by decide)
  · exact h.1
      { id := 12, name := "Layer 12", visible := true
        strokes := [{ id := "stroke_77", color := some "#ffffff", width := 3
                      points := [(1, 2)], erased := false, fill := none }] }
      (by decide)

/-! ## Frame property of the history -/

theorem sig_updateFirstLayer {lid : Int} {f : Layer → Layer}
    (hf : ∀ l, layerSig (f l) = layerSig l) :
    ∀ L : List Layer, (updateFirstLayer lid f L).map layerSig = L.map layerSig := by
  intro L
  induction L with
  | nil => rfl
  | cons a rest ih =>
    rw [updateFirstLayer]
    by_cases ha : a.id = lid
    · rw [if_pos ha]
      simp [hf a]
    · rw [if_neg ha]
      simp [ih]

theorem sig_updateFirstStrokeGlobal {sid : String} {f : Stroke → Stroke} :
    ∀ L : List Layer, (updateFirstStrokeGlobal sid f L).map layerSig = L.map layerSig := by
  intro L
  induction L with
  | nil => rfl
  | cons a rest ih =>
    rw [updateFirstStrokeGlobal]
    by_cases ha : containsStroke sid a.strokes = true
    · rw [if_pos ha]
      simp [layerSig]
    · rw [if_neg ha]
      simp [ih]

theorem sig_foldl_ufsg (snaps : List (String × List (ℚ × ℚ) × List (ℚ × ℚ)))
    (g : (String × List (ℚ × ℚ) × List (ℚ × ℚ)) → Stroke → Stroke) :
    ∀ L : List Layer,
      (snaps.foldl (fun L sn => updateFirstStrokeGlobal sn.1 (g sn) L) L).map layerSig
        = L.map layerSig := by
  induction snaps with
  | nil => intro L; rfl
  | cons sn rest ih =>
    intro L
    rw [List.foldl_cons, ih]
    exact sig_updateFirstStrokeGlobal L

theorem undo_frame (st : AppState) :
    (undo st).doc.layers.map layerSig = st.doc.layers.map layerSig
    ∧ (undo st).doc.width = st.doc.width
    ∧ (undo st).doc.height = st.doc.height
    ∧ (undo st).doc.bgColor = st.doc.bgColor := by
  unfold undo
  repeat' split
  all_goals refine ⟨?_, rfl, rfl, rfl⟩
  all_goals first
    | rfl
    | (refine sig_updateFirstLayer ?_ st.doc.layers
       intro l
       rfl)
    | exact sig_foldl_ufsg _ _ st.doc.layers

theorem redo_frame (st : AppState) :
    (redo st).doc.layers.map layerSig = st.doc.layers.map layerSig
    ∧ (redo st).doc.width = st.doc.width
    ∧ (redo st).doc.height = st.doc.height
    ∧ (redo st).doc.bgColor = st.doc.bgColor := by
  unfold redo
  repeat' split
  all_goals refine ⟨?_, rfl, rfl, rfl⟩
  all_goals first
    | rfl
    | (refine sig_updateFirstLayer ?_ st.doc.layers
       intro l
       rfl)
    | exact sig_foldl_ufsg _ _ st.doc.layers

/-- C10: any sequence of `undo()`/`redo()` calls leaves the layer list's
length, order, ids, names and visibility flags untouched, along with the
canvas size and background colour — the history only ever rewrites
strokes inside existing layers. -/
theorem history_frame_property (ops : List HistOp) (st : AppState) :
    (runHist ops st).doc.layers.map layerSig = st.doc.layers.map layerSig
    ∧ (runHist ops st).doc.width = st.doc.width
    ∧ (runHist ops st).doc.height = st.doc.height
    ∧ (runHist ops st).doc.bgColor = st.doc.bgColor := by
  induction ops generalizing st with
  | nil => exact ⟨rfl, rfl, rfl, rfl⟩
  | cons op t ih =>
    cases op with
    | u =>
      have h1 := undo_frame st
      have h2 := ih (undo st)
      exact ⟨h2.1.trans h1.1, h2.2.1.trans h1.2.1, h2.2.2.1.trans h1.2.2.1,
        h2.2.2.2.trans h1.2.2.2⟩
    | r =>
      have h1 := redo_frame st
      have h2 := ih (redo st)
      exact ⟨h2.1.trans h1.1, h2.2.1.trans h1.2.1, h2.2.2.1.trans h1.2.2.1,
        h2.2.2.2.trans h1.2.2.2⟩


/-! ## C2: toolkit for the undo/redo inverse law -/

theorem stroke_set_erased_self {s : Stroke} {b : Bool} (h : s.erased = b) :
    { s with erased := b } = s := by
  cases s
  cases h
  rfl

theorem stroke_set_points_self {s : Stroke} {p : List (ℚ × ℚ)} (h : s.points = p) :
    { s with points := p } = s := by
  cases s
  cases h
  rfl

theorem findLayer_updateFirstLayer (lid : Int) (f : Layer → Layer)
    (hf : ∀ l, (f l).id = l.id) (L : List Layer) :
    findLayer lid (updateFirstLayer lid f L) = (findLayer lid L).map f := by
  induction L with
  | nil => rfl
  | cons l rest ih =>
    by_cases h : l.id = lid
    · simp only [updateFirstLayer, findLayer, if_pos h, hf l, Option.map_some']
    · simp only [updateFirstLayer, findLayer, if_neg h, ih]

theorem updateFirstLayer_comp (lid : Int) (f g : Layer → Layer)
    (hg : ∀ l, (g l).id = l.id) (L : List Layer) :
    updateFirstLayer lid f (updateFirstLayer lid g L)
      = updateFirstLayer lid (fun l => f (g l)) L := by
  induction L with
  | nil => rfl
  | cons l rest ih =>
    by_cases h : l.id = lid
    · simp only [updateFirstLayer, if_pos h, hg l]
    · simp only [updateFirstLayer, if_neg h, ih]

theorem updateFirstLayer_eq_self (lid : Int) (f : Layer → Layer) (L : List Layer)
    (h : ∀ l, findLayer lid L = some l → f l = l) :
    updateFirstLayer lid f L = L := by
  induction L with
  | nil => rfl
  | cons l rest ih =>
    by_cases hl : l.id = lid
    · simp only [updateFirstLayer, if_pos hl]
      rw [h l (by simp only [findLayer, if_pos hl])]
    · simp only [updateFirstLayer, if_neg hl]
      rw [ih (fun l2 h2 => h l2 (by simp only [findLayer, if_neg hl]; exact h2))]

theorem updateFirstLayer_congr (lid : Int) (f g : Layer → Layer) (L : List Layer)
    (h : ∀ l, findLayer lid L = some l → f l = g l) :
    updateFirstLayer lid f L = updateFirstLayer lid g L := by
  induction L with
  | nil => rfl
  | cons l rest ih =>
    by_cases hl : l.id = lid
    · simp only [updateFirstLayer, if_pos hl]
      rw [h l (by simp only [findLayer, if_pos hl])]
    · simp only [updateFirstLayer, if_neg hl]
      rw [ih (fun l2 h2 => h l2 (by simp only [findLayer, if_neg hl]; exact h2))]

theorem containsStroke_append_self (sid : String) (xs : List Stroke) (s : Stroke)
    (hs : s.id = sid) : containsStroke sid (xs ++ [s]) = true := by
  simp [containsStroke, hs]

theorem removeFirstStroke_append (sid : String) (xs : List Stroke) (s : Stroke)
    (hs : s.id = sid) (hfresh : containsStroke sid xs = false) :
    removeFirstStroke sid (xs ++ [s]) = xs := by
  induction xs with
  | nil => simp only [List.nil_append, removeFirstStroke, if_pos hs]
  | cons t rest ih =>
    simp only [containsStroke, List.any_cons, Bool.or_eq_false_iff,
      decide_eq_false_iff_not] at hfresh
    simp only [List.cons_append, removeFirstStroke, if_neg hfresh.1]
    show t :: removeFirstStroke sid (rest ++ [s]) = t :: rest
    rw [ih (by simp only [containsStroke]; exact hfresh.2)]

theorem hitMark_id (path : List (ℚ × ℚ)) (rad : ℚ) (s : Stroke) :
    (hitMark path rad s).id = s.id := by
  unfold hitMark
  split <;> rfl

theorem fold_setErasedAll_map (b : Bool) (ids : List String) :
    ∀ l : List Stroke,
      ids.foldl (fun acc sid => setErasedAll b sid acc) l
        = l.map (fun s =>
            ids.foldl (fun x sid => if x.id = sid then { x with erased := b } else x) s) := by
  induction ids with
  | nil => intro l; simp
  | cons i rest ih =>
    intro l
    show List.foldl _ (setErasedAll b i l) rest = _
    rw [ih (setErasedAll b i l)]
    simp only [setErasedAll, List.map_map]
    rfl

theorem foldl_setErased_elem (b : Bool) :
    ∀ (ids : List String) (s : Stroke),
      ids.foldl (fun x sid => if x.id = sid then { x with erased := b } else x) s
        = if ids.contains s.id then { s with erased := b } else s := by
  intro ids
  induction ids with
  | nil => intro s; simp
  | cons i rest ih =>
    intro s
    show List.foldl _ (if s.id = i then { s with erased := b } else s) rest = _
    by_cases hi : s.id = i
    · rw [if_pos hi, ih]
      have hc : (i :: rest).contains s.id = true := by simp [hi]
      rw [hc, if_pos rfl]
      split <;> rfl
    · rw [if_neg hi, ih]
      have hc : (i :: rest).contains s.id = rest.contains s.id := by
        simp [List.contains_cons, hi]
      rw [hc]

theorem eraser_ids_contains (path : List (ℚ × ℚ)) (rad : ℚ) {l : List Stroke}
    (hnd : (l.map Stroke.id).Nodup) {s : Stroke} (hs : s ∈ l) :
    (eraserPass path rad l).2.contains s.id = (!s.erased && strokeHit path rad s.points) := by
  rw [eraserPass_snd]
  by_cases hc : (!s.erased && strokeHit path rad s.points) = true
  · rw [hc]
    have hmem : s.id ∈ (l.filter
        (fun s => !s.erased && strokeHit path rad s.points)).map Stroke.id :=
      List.mem_map_of_mem _ (List.mem_filter.mpr ⟨hs, hc⟩)
    simpa using hmem
  · have hcf : (!s.erased && strokeHit path rad s.points) = false := Bool.eq_false_iff.mpr hc
    rw [hcf]
    by_contra hq
    have hq2 : ((l.filter (fun s => !s.erased && strokeHit path rad s.points)).map
        Stroke.id).contains s.id = true := by
      revert hq
      cases ((l.filter (fun s => !s.erased && strokeHit path rad s.points)).map
        Stroke.id).contains s.id <;> simp
    have hmem : s.id ∈ (l.filter
        (fun s => !s.erased && strokeHit path rad s.points)).map Stroke.id := by
      simpa using hq2
    obtain ⟨t, ht, hid⟩ := List.mem_map.mp hmem
    have htl : t ∈ l := (List.mem_filter.mp ht).1
    have htc : (!t.erased && strokeHit path rad t.points) = true := (List.mem_filter.mp ht).2
    have hts : t = s := List.inj_on_of_nodup_map hnd htl hs hid
    rw [hts] at htc
    exact hc htc

theorem erase_fold_false (path : List (ℚ × ℚ)) (rad : ℚ) (l : List Stroke)
    (hnd : (l.map Stroke.id).Nodup) :
    (eraserPass path rad l).2.foldl (fun acc sid => setErasedAll false sid acc)
      (eraserPass path rad l).1 = l := by
  rw [fold_setErasedAll_map, eraserPass_fst, List.map_map]
  have key : ∀ s ∈ l,
      ((fun s => (eraserPass path rad l).2.foldl
          (fun x sid => if x.id = sid then { x with erased := false } else x) s)
        ∘ hitMark path rad) s = s := by
    intro s hs
    show (eraserPass path rad l).2.foldl
        (fun x sid => if x.id = sid then { x with erased := false } else x)
        (hitMark path rad s) = s
    rw [foldl_setErased_elem, hitMark_id, eraser_ids_contains path rad hnd hs]
    by_cases hcase : (!s.erased && strokeHit path rad s.points) = true
    · rw [if_pos hcase]
      unfold hitMark
      rw [if_pos hcase]
      have he : s.erased = false := by
        simp only [Bool.and_eq_true, Bool.not_eq_true'] at hcase
        exact hcase.1
      show { s with erased := false } = s
      exact stroke_set_erased_self he
    · rw [if_neg hcase]
      unfold hitMark
      rw [if_neg hcase]
  rw [List.map_congr_left key, List.map_id']

theorem erase_fold_true (path : List (ℚ × ℚ)) (rad : ℚ) (l : List Stroke)
    (hnd : (l.map Stroke.id).Nodup) :
    (eraserPass path rad l).2.foldl (fun acc sid => setErasedAll true sid acc) l
      = (eraserPass path rad l).1 := by
  rw [fold_setErasedAll_map, eraserPass_fst]
  apply List.map_congr_left
  intro s hs
  rw [foldl_setErased_elem, eraser_ids_contains path rad hnd hs]
  unfold hitMark
  by_cases hcase : (!s.erased && strokeHit path rad s.points) = true
  · rw [if_pos hcase]
  · rw [if_neg hcase]

theorem globalIds_cons (a : Layer) (rest : List Layer) :
    globalIds (a :: rest) = a.strokes.map Stroke.id ++ globalIds rest := by
  simp [globalIds]

theorem containsStroke_false_iff (sid : String) (xs : List Stroke) :
    containsStroke sid xs = false ↔ ∀ s ∈ xs, ¬(s.id = sid) := by
  simp [containsStroke]

theorem containsStroke_true_mem (sid : String) (xs : List Stroke)
    (h : containsStroke sid xs = true) : sid ∈ xs.map Stroke.id := by
  simp only [containsStroke, List.any_eq_true, decide_eq_true_eq] at h
  obtain ⟨s, hs, hid⟩ := h
  exact List.mem_map.mpr ⟨s, hs, hid⟩

theorem updateFirstStroke_eq_map (sid : String) (f : Stroke → Stroke) :
    ∀ xs : List Stroke, (xs.map Stroke.id).Nodup →
      updateFirstStroke sid f xs = xs.map (fun s => if s.id = sid then f s else s) := by
  intro xs
  induction xs with
  | nil => intro _; rfl
  | cons a rest ih =>
    intro hnd
    rw [List.map_cons, List.nodup_cons] at hnd
    by_cases ha : a.id = sid
    · simp only [updateFirstStroke, List.map_cons, if_pos ha]
      have hrest : ∀ s ∈ rest, (if s.id = sid then f s else s) = s := by
        intro s hsmem
        rw [if_neg]
        intro heq
        exact hnd.1 (List.mem_map.mpr ⟨s, hsmem, heq.trans ha.symm⟩)
      rw [List.map_congr_left hrest, List.map_id']
    · simp only [updateFirstStroke, List.map_cons, if_neg ha, ih hnd.2]

theorem gmap_id_of_not_mem (sid : String) (f : Stroke → Stroke) :
    ∀ L : List Layer, sid ∉ globalIds L → gmapStroke sid f L = L := by
  intro L
  induction L with
  | nil => intro _; rfl
  | cons a rest ih =>
    intro h
    rw [globalIds_cons, List.mem_append] at h
    push_neg at h
    simp only [gmapStroke, List.map_cons]
    have hstr : a.strokes.map (fun s => if s.id = sid then f s else s) = a.strokes := by
      have hpt : ∀ s ∈ a.strokes, (if s.id = sid then f s else s) = s := by
        intro s hsm
        rw [if_neg]
        intro hq
        exact h.1 (List.mem_map.mpr ⟨s, hsm, hq⟩)
      rw [List.map_congr_left hpt, List.map_id']
    rw [hstr]
    have htail := ih h.2
    simp only [gmapStroke] at htail
    rw [htail]

theorem gmap_globalIds (sid : String) (f : Stroke → Stroke)
    (hf : ∀ s, (f s).id = s.id) :
    ∀ L : List Layer, globalIds (gmapStroke sid f L) = globalIds L := by
  intro L
  induction L with
  | nil => rfl
  | cons a rest ih =>
    have hhead : (a.strokes.map (fun s => if s.id = sid then f s else s)).map Stroke.id
        = a.strokes.map Stroke.id := by
      rw [List.map_map]
      apply List.map_congr_left
      intro s _
      show Stroke.id (if s.id = sid then f s else s) = s.id
      by_cases hs : s.id = sid
      · rw [if_pos hs]
        exact hf s
      · rw [if_neg hs]
    show globalIds ({ a with
        strokes := a.strokes.map (fun s => if s.id = sid then f s else s) }
      :: gmapStroke sid f rest) = _
    rw [globalIds_cons, globalIds_cons]
    show (a.strokes.map fun s => if s.id = sid then f s else s).map Stroke.id
        ++ globalIds (gmapStroke sid f rest) = _
    rw [hhead, ih]

theorem gmap_sig (sid : String) (f : Stroke → Stroke) (L : List Layer) :
    (gmapStroke sid f L).map layerSig = L.map layerSig := by
  simp only [gmapStroke, List.map_map]
  rfl

theorem ufsg_eq_gmap (sid : String) (f : Stroke → Stroke) :
    ∀ L : List Layer, (globalIds L).Nodup →
      updateFirstStrokeGlobal sid f L = gmapStroke sid f L := by
  intro L
  induction L with
  | nil => intro _; rfl
  | cons a rest ih =>
    intro hnd
    rw [globalIds_cons, List.nodup_append] at hnd
    obtain ⟨hna, hnrest, hdisj⟩ := hnd
    by_cases hc : containsStroke sid a.strokes = true
    · simp only [updateFirstStrokeGlobal, if_pos hc]
      have h1 : updateFirstStroke sid f a.strokes
          = a.strokes.map (fun s => if s.id = sid then f s else s) :=
        updateFirstStroke_eq_map sid f a.strokes hna
      have h2 : gmapStroke sid f rest = rest := by
        apply gmap_id_of_not_mem
        intro hmem
        exact hdisj (containsStroke_true_mem sid a.strokes hc) hmem
      show { a with strokes := updateFirstStroke sid f a.strokes } :: rest
          = { a with
              strokes := a.strokes.map (fun s => if s.id = sid then f s else s) }
            :: gmapStroke sid f rest
      rw [h1, h2]
    · simp only [updateFirstStrokeGlobal, if_neg hc]
      have hcf : containsStroke sid a.strokes = false := Bool.eq_false_iff.mpr hc
      have hstr : a.strokes.map (fun s => if s.id = sid then f s else s) = a.strokes := by
        have hpt : ∀ s ∈ a.strokes, (if s.id = sid then f s else s) = s := by
          intro s hsm
          rw [if_neg ((containsStroke_false_iff sid a.strokes).mp hcf s hsm)]
        rw [List.map_congr_left hpt, List.map_id']
      show a :: updateFirstStrokeGlobal sid f rest
          = { a with
              strokes := a.strokes.map (fun s => if s.id = sid then f s else s) }
            :: gmapStroke sid f rest
      rw [hstr, ih hnrest]

theorem fold_ufsg_eq_fold_gmap
    (sel : (String × List (ℚ × ℚ) × List (ℚ × ℚ)) → List (ℚ × ℚ)) :
    ∀ (snaps : List (String × List (ℚ × ℚ) × List (ℚ × ℚ))) (L : List Layer),
      (globalIds L).Nodup →
      snaps.foldl
          (fun M sn => updateFirstStrokeGlobal sn.1 (fun s2 => { s2 with points := sel sn }) M) L
        = snaps.foldl
            (fun M sn => gmapStroke sn.1 (fun s2 => { s2 with points := sel sn }) M) L := by
  intro snaps
  induction snaps with
  | nil => intro L _; rfl
  | cons sn rest ih =>
    intro L hnd
    show List.foldl _ (updateFirstStrokeGlobal sn.1 (fun s2 => { s2 with points := sel sn }) L) rest
        = List.foldl _ (gmapStroke sn.1 (fun s2 => { s2 with points := sel sn }) L) rest
    rw [ufsg_eq_gmap sn.1 (fun s2 => { s2 with points := sel sn }) L hnd]
    exact ih (gmapStroke sn.1 (fun s2 => { s2 with points := sel sn }) L)
      (by rw [gmap_globalIds sn.1 (fun s2 => { s2 with points := sel sn }) (fun s2 => rfl) L]
          exact hnd)

theorem fold_gmap_globalIds
    (sel : (String × List (ℚ × ℚ) × List (ℚ × ℚ)) → List (ℚ × ℚ)) :
    ∀ (snaps : List (String × List (ℚ × ℚ) × List (ℚ × ℚ))) (L : List Layer),
      globalIds (snaps.foldl
          (fun M sn => gmapStroke sn.1 (fun s2 => { s2 with points := sel sn }) M) L)
        = globalIds L := by
  intro snaps
  induction snaps with
  | nil => intro L; rfl
  | cons sn rest ih =>
    intro L
    show globalIds (List.foldl _ (gmapStroke sn.1 (fun s2 => { s2 with points := sel sn }) L) rest)
        = _
    rw [ih (gmapStroke sn.1 (fun s2 => { s2 with points := sel sn }) L),
      gmap_globalIds sn.1 (fun s2 => { s2 with points := sel sn }) (fun s2 => rfl) L]

theorem fold_gmap_sig
    (sel : (String × List (ℚ × ℚ) × List (ℚ × ℚ)) → List (ℚ × ℚ)) :
    ∀ (snaps : List (String × List (ℚ × ℚ) × List (ℚ × ℚ))) (L : List Layer),
      (snaps.foldl
          (fun M sn => gmapStroke sn.1 (fun s2 => { s2 with points := sel sn }) M) L).map layerSig
        = L.map layerSig := by
  intro snaps
  induction snaps with
  | nil => intro L; rfl
  | cons sn rest ih =>
    intro L
    show (List.foldl _ (gmapStroke sn.1 (fun s2 => { s2 with points := sel sn }) L) rest).map
        layerSig = _
    rw [ih (gmapStroke sn.1 (fun s2 => { s2 with points := sel sn }) L),
      gmap_sig sn.1 (fun s2 => { s2 with points := sel sn }) L]

theorem findSnap_eq_none (sid : String)
    (snaps : List (String × List (ℚ × ℚ) × List (ℚ × ℚ)))
    (h : ∀ sn ∈ snaps, ¬(sn.1 = sid)) : findSnap sid snaps = none := by
  apply List.find?_eq_none.mpr
  intro x hx
  simp only [decide_eq_true_eq]
  exact h x hx

theorem findSnap_cons_pos (sid : String) (sn : String × List (ℚ × ℚ) × List (ℚ × ℚ))
    (rest : List (String × List (ℚ × ℚ) × List (ℚ × ℚ))) (h : sn.1 = sid) :
    findSnap sid (sn :: rest) = some sn := by
  unfold findSnap
  apply List.find?_cons_of_pos
  simp [h]

theorem findSnap_cons_neg (sid : String) (sn : String × List (ℚ × ℚ) × List (ℚ × ℚ))
    (rest : List (String × List (ℚ × ℚ) × List (ℚ × ℚ))) (h : ¬(sn.1 = sid)) :
    findSnap sid (sn :: rest) = findSnap sid rest := by
  unfold findSnap
  apply List.find?_cons_of_neg
  simp [h]

theorem findStrokeIn_mem (xs : List Stroke) (hnd : (xs.map Stroke.id).Nodup)
    {s : Stroke} (hs : s ∈ xs) : findStrokeIn s.id xs = some s := by
  induction xs with
  | nil => cases hs
  | cons t rest ih =>
    rw [List.map_cons, List.nodup_cons] at hnd
    rcases List.mem_cons.mp hs with rfl | hmem
    · simp [findStrokeIn]
    · by_cases ht : t.id = s.id
      · exfalso
        apply hnd.1
        rw [ht]
        exact List.mem_map.mpr ⟨s, hmem, rfl⟩
      · simp only [findStrokeIn, if_neg ht]
        exact ih hnd.2 hmem

theorem findStrokeIn_eq_none (sid : String) (xs : List Stroke)
    (h : ∀ s ∈ xs, ¬(s.id = sid)) : findStrokeIn sid xs = none := by
  induction xs with
  | nil => rfl
  | cons t rest ih =>
    simp only [findStrokeIn, if_neg (h t (List.mem_cons_self t rest))]
    exact ih (fun s hs => h s (List.mem_cons_of_mem t hs))

theorem findStrokeGlobal_of_mem :
    ∀ L : List Layer, (globalIds L).Nodup →
    ∀ {l : Layer}, l ∈ L → ∀ {s : Stroke}, s ∈ l.strokes →
      findStrokeGlobal s.id L = some s := by
  intro L
  induction L with
  | nil =>
    intro _ l hl
    cases hl
  | cons a rest ih =>
    intro hnd l hl s hs
    rw [globalIds_cons, List.nodup_append] at hnd
    obtain ⟨hna, hnrest, hdisj⟩ := hnd
    rcases List.mem_cons.mp hl with rfl | hmem
    · simp only [findStrokeGlobal]
      rw [findStrokeIn_mem l.strokes hna hs]
    · have hid : s.id ∈ globalIds rest := by
        unfold globalIds
        rw [List.mem_flatten]
        exact ⟨l.strokes.map Stroke.id, List.mem_map.mpr ⟨l, hmem, rfl⟩,
          List.mem_map.mpr ⟨s, hs, rfl⟩⟩
      have hnone : findStrokeIn s.id a.strokes = none := by
        apply findStrokeIn_eq_none
        intro t ht hq
        exact hdisj (List.mem_map.mpr ⟨t, ht, hq⟩) hid
      simp only [findStrokeGlobal]
      rw [hnone]
      exact ih hnrest hmem hs

theorem findLayer_isSome_congr (lid : Int) :
    ∀ (L L' : List Layer), L'.map layerSig = L.map layerSig →
      (findLayer lid L').isSome = (findLayer lid L).isSome := by
  intro L
  induction L with
  | nil =>
    intro L' h
    rw [List.map_nil, List.map_eq_nil_iff] at h
    subst h
    rfl
  | cons a rest ih =>
    intro L' h
    cases L' with
    | nil => simp at h
    | cons b rest2 =>
      rw [List.map_cons, List.map_cons] at h
      injection h with h1 h2
      have hid : b.id = a.id := congrArg Prod.fst h1
      by_cases ha : a.id = lid
      · simp only [findLayer, if_pos ha, if_pos (hid.trans ha)]
        rfl
      · simp only [findLayer, if_neg ha, if_neg (fun hq => ha (hid.symm.trans hq))]
        exact ih rest2 h2

theorem fold_gmap_char
    (sel : (String × List (ℚ × ℚ) × List (ℚ × ℚ)) → List (ℚ × ℚ)) :
    ∀ snaps : List (String × List (ℚ × ℚ) × List (ℚ × ℚ)),
      (snaps.map (fun sn => sn.1)).Nodup →
    ∀ L : List Layer,
      snaps.foldl
          (fun M sn => gmapStroke sn.1 (fun s2 => { s2 with points := sel sn }) M) L
        = L.map (fun l => { l with strokes := l.strokes.map (fun s =>
            match findSnap s.id snaps with
            | some sn2 => { s with points := sel sn2 }
            | none => s) }) := by
  intro snaps
  induction snaps with
  | nil =>
    intro _ L
    symm
    have h1 : ∀ l ∈ L, (fun l => { l with strokes := l.strokes.map (fun s =>
        match findSnap s.id ([] : List (String × List (ℚ × ℚ) × List (ℚ × ℚ))) with
        | some sn2 => { s with points := sel sn2 }
        | none => s) }) l = l := by
      intro l _
      show { l with strokes := l.strokes.map (fun s =>
          match findSnap s.id ([] : List (String × List (ℚ × ℚ) × List (ℚ × ℚ))) with
          | some sn2 => { s with points := sel sn2 }
          | none => s) } = l
      have h2 : ∀ s ∈ l.strokes, (fun s => match
          findSnap s.id ([] : List (String × List (ℚ × ℚ) × List (ℚ × ℚ))) with
          | some sn2 => { s with points := sel sn2 }
          | none => s) s = s := fun s _ => rfl
      rw [List.map_congr_left h2, List.map_id']
    rw [List.map_congr_left h1, List.map_id']
    rfl
  | cons sn rest ih =>
    intro hnd L
    rw [List.map_cons, List.nodup_cons] at hnd
    obtain ⟨hfst, hrest⟩ := hnd
    show List.foldl _ (gmapStroke sn.1 (fun s2 => { s2 with points := sel sn }) L) rest
        = _
    rw [ih hrest (gmapStroke sn.1 (fun s2 => { s2 with points := sel sn }) L)]
    show (L.map (fun (l : Layer) => { l with
        strokes := l.strokes.map (fun (s : Stroke) => if s.id = sn.1
          then { s with points := sel sn } else s) })).map _ = _
    rw [List.map_map]
    apply List.map_congr_left
    intro l _
    show { l with strokes := (l.strokes.map (fun (s : Stroke) => if s.id = sn.1
        then { s with points := sel sn } else s)).map (fun (s : Stroke) =>
          match findSnap s.id rest with
          | some sn2 => { s with points := sel sn2 }
          | none => s) }
      = { l with strokes := l.strokes.map (fun s =>
          match findSnap s.id (sn :: rest) with
          | some sn2 => { s with points := sel sn2 }
          | none => s) }
    rw [List.map_map]
    congr 1
    apply List.map_congr_left
    intro s _
    simp only [Function.comp_apply]
    by_cases hsid : s.id = sn.1
    · rw [if_pos hsid]
      have hn : findSnap (Stroke.id { s with points := sel sn }) rest = none := by
        apply findSnap_eq_none
        intro x hx hq
        exact hfst (List.mem_map.mpr ⟨x, hx, hq.trans hsid⟩)
      rw [hn, findSnap_cons_pos s.id sn rest hsid.symm]
    · rw [if_neg hsid, findSnap_cons_neg s.id sn rest (fun hq => hsid hq.symm)]

theorem move_fold_roundtrip
    (snaps : List (String × List (ℚ × ℚ) × List (ℚ × ℚ))) (L : List Layer)
    (hndsn : (snaps.map (fun sn => sn.1)).Nodup)
    (hgnd : (globalIds L).Nodup)
    (hsnap : ∀ sn ∈ snaps, ∀ t : Stroke,
      findStrokeGlobal sn.1 L = some t → t.points = sn.2.1) :
    snaps.foldl (fun M sn => gmapStroke sn.1 (fun s2 => { s2 with points := sn.2.1 }) M)
        (snaps.foldl
          (fun M sn => gmapStroke sn.1 (fun s2 => { s2 with points := sn.2.2 }) M) L)
      = L := by
  rw [fold_gmap_char (fun sn => sn.2.2) snaps hndsn L,
    fold_gmap_char (fun sn => sn.2.1) snaps hndsn, List.map_map]
  have hpt : ∀ l ∈ L, ((fun (l : Layer) => { l with strokes := l.strokes.map (fun s =>
      match findSnap s.id snaps with
      | some sn2 => { s with points := sn2.2.1 }
      | none => s) }) ∘ (fun (l : Layer) => { l with strokes := l.strokes.map (fun s =>
      match findSnap s.id snaps with
      | some sn2 => { s with points := sn2.2.2 }
      | none => s) })) l = l := by
    intro l hl
    show { l with strokes := (l.strokes.map (fun (s : Stroke) =>
        match findSnap s.id snaps with
        | some sn2 => { s with points := sn2.2.2 }
        | none => s)).map (fun (s : Stroke) =>
          match findSnap s.id snaps with
          | some sn2 => { s with points := sn2.2.1 }
          | none => s) } = l
    rw [List.map_map]
    have hs : ∀ s ∈ l.strokes, ((fun (s : Stroke) =>
        match findSnap s.id snaps with
        | some sn2 => { s with points := sn2.2.1 }
        | none => s) ∘ (fun (s : Stroke) =>
        match findSnap s.id snaps with
        | some sn2 => { s with points := sn2.2.2 }
        | none => s)) s = s := by
      intro s hsm
      simp only [Function.comp_apply]
      cases hfs : findSnap s.id snaps with
      | none =>
        show (match findSnap s.id snaps with
          | some sn2 => { s with points := sn2.2.1 }
          | none => s) = s
        rw [hfs]
      | some sn2 =>
        have hff : List.find? (fun sn => decide (sn.1 = s.id)) snaps = some sn2 := hfs
        have hmem : sn2 ∈ snaps := List.mem_of_find?_eq_some hff
        have hsid : sn2.1 = s.id := by
          have hps := List.find?_some hff
          simpa using hps
        have hfg : findStrokeGlobal s.id L = some s :=
          findStrokeGlobal_of_mem L hgnd hl hsm
        have hpts : s.points = sn2.2.1 := hsnap sn2 hmem s (by rw [hsid]; exact hfg)
        show (match findSnap s.id snaps with
          | some sn3 => { { s with points := sn2.2.2 } with points := sn3.2.1 }
          | none => { s with points := sn2.2.2 }) = s
        rw [hfs]
        show { s with points := sn2.2.1 } = s
        exact stroke_set_points_self hpts
    rw [List.map_congr_left hs, List.map_id']
  rw [List.map_congr_left hpt, List.map_id']

/-- C2 (amended): the undo/redo inverse law for the three operation kinds
the editor actually logs (`AddStroke`, `EraseStrokes`, `MoveStrokes`):
when the operation succeeds and the document id invariants hold (`opOk`),
`undo` right after the operation restores the pre-operation document, and
`redo` right after that `undo` restores the post-operation document.
There is no `SetFill` action class: the fill tool logs an `AddStroke` of
the already-mutated stroke, so undoing a fill removes the stroke from its
layer instead of restoring the previous fill value. -/
theorem undo_redo_inverse_law (op : EditOp) (st : AppState) (h : opOk op st = true) :
    (undo (applyOp op st)).doc = st.doc
    ∧ (redo (undo (applyOp op st))).doc = (applyOp op st).doc := by
  cases op with
  | addStroke lid s =>
    simp only [opOk] at h
    cases hfl : findLayer lid st.doc.layers with
    | none =>
      rw [hfl] at h
      cases h
    | some l0 =>
      rw [hfl] at h
      have h2 : (!containsStroke s.id l0.strokes) = true := h
      have hfresh : containsStroke s.id l0.strokes = false := by
        simp only [Bool.not_eq_true'] at h2
        exact h2
      have hL1 : findLayer lid (updateFirstLayer lid
          (fun l => { l with strokes := l.strokes ++ [s] }) st.doc.layers)
          = some { l0 with strokes := l0.strokes ++ [s] } := by
        rw [findLayer_updateFirstLayer lid
          (fun l => { l with strokes := l.strokes ++ [s] }) (fun l => rfl), hfl]
        rfl
      have hrem : updateFirstLayer lid
          (fun l2 => { l2 with strokes := removeFirstStroke s.id l2.strokes })
          (updateFirstLayer lid
            (fun l => { l with strokes := l.strokes ++ [s] }) st.doc.layers)
          = st.doc.layers := by
        rw [updateFirstLayer_comp lid
          (fun l2 => { l2 with strokes := removeFirstStroke s.id l2.strokes })
          (fun l => { l with strokes := l.strokes ++ [s] }) (fun l => rfl)]
        apply updateFirstLayer_eq_self
        intro l hl
        rw [hfl] at hl
        injection hl with hl
        subst hl
        show { l0 with strokes := removeFirstStroke s.id (l0.strokes ++ [s]) } = l0
        rw [removeFirstStroke_append s.id l0.strokes s rfl hfresh]
      have hundo : undo (applyOp (.addStroke lid s) st)
          = ⟨st.doc, st.undoStack, [.addStroke lid s]⟩ := by
        simp only [applyOp, undo, hL1]
        rw [if_pos (show containsStroke s.id (l0.strokes ++ [s]) = true from
          containsStroke_append_self s.id l0.strokes s rfl)]
        rw [hrem]
      have hredo : redo (⟨st.doc, st.undoStack, [.addStroke lid s]⟩ : AppState)
          = applyOp (.addStroke lid s) st := by
        simp only [applyOp, redo, hfl]
      exact ⟨by rw [hundo], by rw [hundo, hredo]⟩
  | eraseStrokes lid path w =>
    simp only [opOk] at h
    cases hfl : findLayer lid st.doc.layers with
    | none =>
      rw [hfl] at h
      cases h
    | some l0 =>
      rw [hfl] at h
      have h2 : (!path.isEmpty && !(eraserPass path (w / 2) l0.strokes).2.isEmpty
          && decide (l0.strokes.map Stroke.id).Nodup) = true := h
      simp only [Bool.and_eq_true, Bool.not_eq_true', decide_eq_true_eq] at h2
      obtain ⟨⟨hp, hie⟩, hnd⟩ := h2
      have hpne : ¬(path = []) := by
        intro hq
        rw [hq] at hp
        simp at hp
      have hidsne : ¬((eraserPass path (w / 2) l0.strokes).2 = []) := by
        intro hq
        rw [hq] at hie
        simp at hie
      have hL1 : findLayer lid (updateFirstLayer lid
          (fun l2 => { l2 with strokes := (eraserPass path (w / 2) l2.strokes).1 })
          st.doc.layers)
          = some { l0 with strokes := (eraserPass path (w / 2) l0.strokes).1 } := by
        rw [findLayer_updateFirstLayer lid
          (fun l2 => { l2 with strokes := (eraserPass path (w / 2) l2.strokes).1 })
          (fun l => rfl), hfl]
        rfl
      have hrem : updateFirstLayer lid
          (fun l2 => { l2 with
            strokes := (eraserPass path (w / 2) l0.strokes).2.foldl
                         (fun acc sid => setErasedAll false sid acc) l2.strokes })
          (updateFirstLayer lid
            (fun l2 => { l2 with strokes := (eraserPass path (w / 2) l2.strokes).1 })
            st.doc.layers)
          = st.doc.layers := by
        rw [updateFirstLayer_comp lid
          (fun l2 => { l2 with
            strokes := (eraserPass path (w / 2) l0.strokes).2.foldl
                         (fun acc sid => setErasedAll false sid acc) l2.strokes })
          (fun l2 => { l2 with strokes := (eraserPass path (w / 2) l2.strokes).1 })
          (fun l => rfl)]
        apply updateFirstLayer_eq_self
        intro l hl
        rw [hfl] at hl
        injection hl with hl
        subst hl
        show { l0 with
          strokes := (eraserPass path (w / 2) l0.strokes).2.foldl
                       (fun acc sid => setErasedAll false sid acc)
                       (eraserPass path (w / 2) l0.strokes).1 } = l0
        rw [erase_fold_false path (w / 2) l0.strokes hnd]
      have hre : updateFirstLayer lid
          (fun l2 => { l2 with
            strokes := (eraserPass path (w / 2) l0.strokes).2.foldl
                         (fun acc sid => setErasedAll true sid acc) l2.strokes })
          st.doc.layers
          = updateFirstLayer lid
            (fun l2 => { l2 with strokes := (eraserPass path (w / 2) l2.strokes).1 })
            st.doc.layers := by
        apply updateFirstLayer_congr
        intro l hl
        rw [hfl] at hl
        injection hl with hl
        subst hl
        show { l0 with
            strokes := (eraserPass path (w / 2) l0.strokes).2.foldl
                         (fun acc sid => setErasedAll true sid acc) l0.strokes }
          = { l0 with strokes := (eraserPass path (w / 2) l0.strokes).1 }
        rw [erase_fold_true path (w / 2) l0.strokes hnd]
      have hundo : undo (applyOp (.eraseStrokes lid path w) st)
          = ⟨st.doc, st.undoStack,
              [.eraseStrokes lid (eraserPass path (w / 2) l0.strokes).2]⟩ := by
        simp only [applyOp, hfl]
        rw [if_neg hpne, if_neg hidsne]
        simp only [undo, hL1]
        rw [hrem]
      have hredo : redo (⟨st.doc, st.undoStack,
            [.eraseStrokes lid (eraserPass path (w / 2) l0.strokes).2]⟩ : AppState)
          = applyOp (.eraseStrokes lid path w) st := by
        simp only [applyOp, redo, hfl]
        rw [if_neg hpne, if_neg hidsne, hre]
      exact ⟨by rw [hundo], by rw [hundo, hredo]⟩
  | moveStrokes lid snaps =>
    simp only [opOk] at h
    simp only [Bool.and_eq_true, decide_eq_true_eq, List.all_eq_true] at h
    obtain ⟨⟨⟨hsome, hndsn⟩, hgnd⟩, hall⟩ := h
    obtain ⟨l0, hfl⟩ := Option.isSome_iff_exists.mp hsome
    have hsnap : ∀ sn ∈ snaps, ∀ t : Stroke,
        findStrokeGlobal sn.1 st.doc.layers = some t → t.points = sn.2.1 := by
      intro sn hsn t ht
      have hp := hall sn hsn
      rw [ht] at hp
      exact of_decide_eq_true hp
    have hFN : snaps.foldl
        (fun L sn => updateFirstStrokeGlobal sn.1
          (fun s2 => { s2 with points := sn.2.2 }) L) st.doc.layers
        = snaps.foldl
          (fun M sn => gmapStroke sn.1 (fun s2 => { s2 with points := sn.2.2 }) M)
          st.doc.layers :=
      fold_ufsg_eq_fold_gmap (fun sn => sn.2.2) snaps st.doc.layers hgnd
    have hgnd2 : (globalIds (snaps.foldl
        (fun M sn => gmapStroke sn.1 (fun s2 => { s2 with points := sn.2.2 }) M)
        st.doc.layers)).Nodup := by
      rw [fold_gmap_globalIds (fun sn => sn.2.2) snaps st.doc.layers]
      exact hgnd
    have hFO : snaps.foldl
        (fun L sn => updateFirstStrokeGlobal sn.1
          (fun s2 => { s2 with points := sn.2.1 }) L)
        (snaps.foldl
          (fun M sn => gmapStroke sn.1 (fun s2 => { s2 with points := sn.2.2 }) M)
          st.doc.layers)
        = st.doc.layers := by
      rw [fold_ufsg_eq_fold_gmap (fun sn => sn.2.1) snaps _ hgnd2]
      exact move_fold_roundtrip snaps st.doc.layers hndsn hgnd hsnap
    have hiso : ∃ l1, findLayer lid (snaps.foldl
        (fun L sn => updateFirstStrokeGlobal sn.1
          (fun s2 => { s2 with points := sn.2.2 }) L) st.doc.layers) = some l1 := by
      have hsig : (snaps.foldl
          (fun L sn => updateFirstStrokeGlobal sn.1
            (fun s2 => { s2 with points := sn.2.2 }) L) st.doc.layers).map layerSig
          = st.doc.layers.map layerSig := by
        rw [hFN]
        exact fold_gmap_sig (fun sn => sn.2.2) snaps st.doc.layers
      have hi := findLayer_isSome_congr lid st.doc.layers _ hsig
      rw [hfl] at hi
      exact Option.isSome_iff_exists.mp (hi.trans rfl)
    obtain ⟨l1, hL1⟩ := hiso
    have hundo : undo (applyOp (.moveStrokes lid snaps) st)
        = ⟨st.doc, st.undoStack, [.moveStrokes lid snaps]⟩ := by
      simp only [applyOp, undo, hL1]
      rw [hFN, fold_ufsg_eq_fold_gmap (fun sn => sn.2.1) snaps _ hgnd2,
        move_fold_roundtrip snaps st.doc.layers hndsn hgnd hsnap]
    have hredo : redo (⟨st.doc, st.undoStack, [.moveStrokes lid snaps]⟩ : AppState)
        = applyOp (.moveStrokes lid snaps) st := by
      simp only [applyOp, redo, hfl]
    exact ⟨by rw [hundo], by rw [hundo, hredo]⟩

/-- C2 counterexample: there is no `SetFill` action class. `_apply_fill_at`
logs its change as an `ActionAddStroke` of the already-mutated stroke, so
`undo` right after a successful fill removes the filled stroke from its
layer entirely instead of restoring the previous fill value: filling the
white triangle at (2,2) sets its fill, and the subsequent `undo` leaves the
layer with no strokes at all (and in particular a document different from
the pre-fill one). -/
theorem fill_undo_removes_stroke :
    (apply_fill_at 2 2 "#ff0000" 1 fillDemoState).doc.layers.map
        (fun l => l.strokes.map (fun s => (s.id, s.fill))) = [[("stroke_1", some "#ff0000")]]
    ∧ (undo (apply_fill_at 2 2 "#ff0000" 1 fillDemoState)).doc.layers.map
        (fun l => l.strokes.map (fun s => (s.id, s.fill))) = [[]]
    ∧ (undo (apply_fill_at 2 2 "#ff0000" 1 fillDemoState)).doc ≠ fillDemoState.doc := by
  refine ⟨by decide, by decide, by decide⟩

/-- Witness for the amended inverse law at a concrete input: adding the
fresh stroke `stroke_9` to layer 1 of the demo document satisfies `opOk`,
and undo/redo behave as the law states. -/
theorem undo_redo_inverse_law_witness :
    opOk (.addStroke 1 demoStroke9) fillDemoState = true
    ∧ (undo (applyOp (.addStroke 1 demoStroke9) fillDemoState)).doc = fillDemoState.doc
    ∧ (redo (undo (applyOp (.addStroke 1 demoStroke9) fillDemoState))).doc
        = (applyOp (.addStroke 1 demoStroke9) fillDemoState).doc :=
  ⟨by decide,
    (undo_redo_inverse_law (.addStroke 1 demoStroke9) fillDemoState (by decide)).1,
    (undo_redo_inverse_law (.addStroke 1 demoStroke9) fillDemoState (by decide)).2⟩

/-! ## C4: brace-tail versus look-ahead style consumption in `_parse_draw` -/

theorem strToList_append (s t : String) : (s ++ t).toList = s.toList ++ t.toList :=
  String.data_append s t

theorem dropWhile_eq_self_cons (p : Char → Bool) (h : Char) (t : List Char)
    (he : (h :: t).dropWhile p = h :: t) : p h = false := by
  by_contra hq
  have hp : p h = true := by
    revert hq
    cases p h <;> simp
  rw [List.dropWhile_cons, if_pos hp] at he
  have hlen := congrArg List.length he
  have hle := (List.dropWhile_suffix p (l := t)).length_le
  simp only [List.length_cons] at hlen
  omega

theorem stripEnds_parts (p : Char → Bool) (l : List Char) (h : stripEnds p l = l) :
    l.dropWhile p = l ∧ l.reverse.dropWhile p = l.reverse := by
  unfold stripEnds at h
  have hlen := congrArg List.length h
  have hle1 := (List.dropWhile_suffix p (l := l)).length_le
  have hle2 := (List.dropWhile_suffix p (l := (l.dropWhile p).reverse)).length_le
  simp only [List.length_reverse] at hlen hle2
  have hfrontlen : (l.dropWhile p).length = l.length := by omega
  have hfront : l.dropWhile p = l :=
    (List.dropWhile_suffix p).eq_of_length hfrontlen
  rw [hfront] at h
  constructor
  · exact hfront
  · have := congrArg List.reverse h
    rw [List.reverse_reverse] at this
    exact this

theorem strip_brace_tail (T : String) (h2 : pyStrip T = T) (h3 : T ≠ "") :
    pyStrip ("\x7d " ++ T) = "\x7d " ++ T := by
  have hTL : stripEnds isSpaceChar T.toList = T.toList := congrArg String.data h2
  obtain ⟨hfront, hback⟩ := stripEnds_parts isSpaceChar T.toList hTL
  have hTne : T.toList ≠ [] := by
    intro hq
    apply h3
    cases T with
    | mk d =>
      simp only [String.toList] at hq
      rw [hq]
  have hlist : ("\x7d " ++ T).toList = '}' :: ' ' :: T.toList := by
    rw [strToList_append]
    rfl
  show (⟨stripEnds isSpaceChar ("\x7d " ++ T).toList⟩ : String) = "\x7d " ++ T
  rw [hlist]
  cases hrev : T.toList.reverse with
  | nil =>
    exfalso
    apply hTne
    have := congrArg List.reverse hrev
    rw [List.reverse_reverse] at this
    rw [this]
    rfl
  | cons hc tc =>
    have hhc : isSpaceChar hc = false := by
      apply dropWhile_eq_self_cons isSpaceChar hc tc
      rw [← hrev]
      exact hback
    have hstep : stripEnds isSpaceChar ('}' :: ' ' :: T.toList)
        = '}' :: ' ' :: T.toList := by
      unfold stripEnds
      rw [List.dropWhile_cons]
      rw [if_neg (by simp [isSpaceChar])]
      have hsplit : ('}' :: ' ' :: T.toList).reverse = (hc :: tc) ++ [' ', '}'] := by
        rw [← hrev]
        simp
      rw [hsplit]
      show ((hc :: (tc ++ [' ', '}'])).dropWhile isSpaceChar).reverse = _
      rw [List.dropWhile_cons, if_neg (by rw [hhc]; simp)]
      show ((hc :: tc) ++ [' ', '}']).reverse = _
      rw [← hrev]
      simp
    rw [hstep]
    exact congrArg String.mk hlist.symm

theorem strip_drop_brace_tail (T : String) (h2 : pyStrip T = T) :
    pyStrip (strDrop ("\x7d " ++ T) 1) = T := by
  have hTL : stripEnds isSpaceChar T.toList = T.toList := congrArg String.data h2
  obtain ⟨hfront, hback⟩ := stripEnds_parts isSpaceChar T.toList hTL
  have hlist : ("\x7d " ++ T).toList = '}' :: ' ' :: T.toList := by
    rw [strToList_append]
    rfl
  show (⟨stripEnds isSpaceChar (strDrop ("\x7d " ++ T) 1).toList⟩ : String) = T
  unfold strDrop
  show (⟨stripEnds isSpaceChar ((("\x7d " ++ T).toList.drop 1 : List Char))⟩ : String) = T
  rw [hlist]
  show (⟨stripEnds isSpaceChar (' ' :: T.toList)⟩ : String) = T
  unfold stripEnds
  rw [List.dropWhile_cons, if_pos (by simp [isSpaceChar]), hfront, hback,
    List.reverse_reverse]
  rfl

theorem brace_tail_ne_empty (T : String) : ("\x7d " ++ T) ≠ "" := by
  intro hq
  have := congrArg String.data hq
  rw [String.data_append] at this
  simp at this

theorem brace_tail_not_comment (T : String) :
    strStartsWith ("\x7d " ++ T) "#" = false := by
  unfold strStartsWith
  rw [show ("\x7d " ++ T).toList = '}' :: ' ' :: T.toList from by rw [strToList_append]; rfl]
  rfl

theorem brace_tail_starts_brace (T : String) :
    strStartsWith ("\x7d " ++ T) "\x7d" = true := by
  unfold strStartsWith
  rw [show ("\x7d " ++ T).toList = '}' :: ' ' :: T.toList from by rw [strToList_append]; rfl]
  rfl

theorem rParsePath_brace_tail_eq_lookahead (T : String) (rest : List String)
    (h2 : pyStrip T = T) (h3 : T ≠ "") (h4 : strStartsWith T "#" = false)
    (h5 : strContainsChar '=' T = true)
    (h6 : reservedWords.contains (headTokenD T) = false) :
    ∀ body : List String, (∀ b ∈ body, strStartsWith (pyStrip b) "\x7d" = false) →
    ∀ pts0 : List (ℚ × ℚ),
      rParsePath (body ++ ("\x7d " ++ T) :: rest) pts0
        = rParsePath (body ++ "\x7d" :: T :: rest) pts0 := by
  intro body
  induction body with
  | nil =>
    intro _ pts0
    show rParsePath (("\x7d " ++ T) :: rest) pts0 = rParsePath ("\x7d" :: T :: rest) pts0
    have hlk : rLookahead (T :: rest) = some (splitWs T, rest) := by
      simp only [rLookahead]
      rw [h2]
      rw [if_neg (show ¬((decide (T = "") || strStartsWith T "#") = true) from by
        rw [decide_eq_false h3, h4]
        simp)]
      rw [if_pos (show (strContainsChar '=' T && !reservedWords.contains (headTokenD T))
          = true from by rw [h5, h6]; rfl)]
    simp only [rParsePath]
    rw [strip_brace_tail T h2 h3]
    rw [if_neg (show ¬((decide (("\x7d " ++ T) = "")
        || strStartsWith ("\x7d " ++ T) "#") = true) from by
      rw [decide_eq_false (brace_tail_ne_empty T), brace_tail_not_comment T]
      simp)]
    rw [if_pos (brace_tail_starts_brace T)]
    rw [strip_drop_brace_tail T h2]
    rw [if_neg h3]
    rw [show pyStrip "\x7d" = "\x7d" from by decide]
    rw [if_neg (show ¬((decide (("\x7d" : String) = "")
        || strStartsWith "\x7d" "#") = true) from by decide)]
    rw [if_pos (show strStartsWith "\x7d" "\x7d" = true from by decide)]
    rw [show pyStrip (strDrop "\x7d" 1) = "" from by decide]
    rw [if_pos (show ("" : String) = "" from rfl)]
    rw [hlk]
  | cons b body2 ih =>
    intro hb pts0
    have hbhead : strStartsWith (pyStrip b) "\x7d" = false :=
      hb b (List.mem_cons_self b body2)
    have hbrest : ∀ x ∈ body2, strStartsWith (pyStrip x) "\x7d" = false :=
      fun x hx => hb x (List.mem_cons_of_mem b hx)
    show rParsePath (b :: (body2 ++ ("\x7d " ++ T) :: rest)) pts0
        = rParsePath (b :: (body2 ++ "\x7d" :: T :: rest)) pts0
    simp only [rParsePath]
    by_cases hskip : (decide (pyStrip b = "") || strStartsWith (pyStrip b) "#") = true
    · rw [if_pos hskip, if_pos hskip]
      exact ih hbrest pts0
    · rw [if_neg hskip, if_neg hskip]
      rw [if_neg (show ¬(strStartsWith (pyStrip b) "\x7d" = true) from by
        rw [hbhead]
        simp)]
      rw [if_neg (show ¬(strStartsWith (pyStrip b) "\x7d" = true) from by
        rw [hbhead]
        simp)]
      exact ih hbrest (rPathCmd pts0 (pyStrip b))

/-- C4 (amended, renderer side): in `inks_renderer.py`, a draw-path block
whose closing brace line carries the style tokens inline parses exactly
like the block whose brace stands alone with the same (pre-stripped,
substantive, `=`-bearing, non-reserved, non-comment) style line following:
the collected points, style tokens and unconsumed lines coincide, hence so
do the resolved stroke colour and width. The body lines may not begin, once
stripped, with a closing brace. (The claim as stated over "every draw-path
block" also covers the editor, where the two variants diverge: the editor
has no look-ahead, see the counterexample.) -/
theorem renderer_brace_tail_lookahead_equiv
    (body : List String) (T : String) (rest : List String) (pts0 : List (ℚ × ℚ))
    (h1 : body.all (fun b => !strStartsWith (pyStrip b) "\x7d") = true)
    (h2 : pyStrip T = T) (h3 : T ≠ "") (h4 : strStartsWith T "#" = false)
    (h5 : strContainsChar '=' T = true)
    (h6 : reservedWords.contains (headTokenD T) = false) :
    rParsePath (body ++ ("\x7d " ++ T) :: rest) pts0
      = rParsePath (body ++ "\x7d" :: T :: rest) pts0
    ∧ ∀ (layerStroke : Option (ℕ × ℕ × ℕ)) (layerWidth : Int),
        rResolveStroke (rParsePath (body ++ ("\x7d " ++ T) :: rest) pts0).2.1 layerStroke
          = rResolveStroke (rParsePath (body ++ "\x7d" :: T :: rest) pts0).2.1 layerStroke
        ∧ rResolveWidth (rParsePath (body ++ ("\x7d " ++ T) :: rest) pts0).2.1 layerWidth
          = rResolveWidth (rParsePath (body ++ "\x7d" :: T :: rest) pts0).2.1 layerWidth := by
  have h1m : ∀ b ∈ body, strStartsWith (pyStrip b) "\x7d" = false := by
    intro b hbm
    have := List.all_eq_true.mp h1 b hbm
    simp only [Bool.not_eq_true'] at this
    exact this
  have h := rParsePath_brace_tail_eq_lookahead T rest h2 h3 h4 h5 h6 body h1m pts0
  refine ⟨h, fun ls lw => ?_⟩
  rw [h]
  exact ⟨rfl, rfl⟩

/-- C4 counterexample: the claim quantifies over every draw-path block of
the format, but the EDITOR's loader has no look-ahead (its writer only
emits the inline form). On the same block body, the brace-tail variant
yields a stroke with colour `#ff0000` and width 4, while the variant with
the style tokens on the following line yields the defaults `#000000` and
2 — the style line is silently ignored as an unknown directive. -/
theorem editor_nextline_style_divergence :
    (load_from_lines defaultDoc editorLinesA).1.layers.map
        (fun l => l.strokes.map (fun s => (s.color, s.width))) = [[(some "#ff0000", 4)]]
    ∧ (load_from_lines defaultDoc editorLinesB).1.layers.map
        (fun l => l.strokes.map (fun s => (s.color, s.width))) = [[(some "#000000", 2)]] := by
  refine ⟨by decide, by decide⟩

/-- Witness for the renderer-side equivalence at a concrete block: body
`move 1 2` / `line 3 4`, style line `stroke=#ff0000 strokeWidth=4`, one
trailing line. -/
theorem renderer_brace_tail_lookahead_equiv_witness :
    (["move 1 2", "line 3 4"].all
        (fun b => !strStartsWith (pyStrip b) "\x7d")) = true
    ∧ pyStrip "stroke=#ff0000 strokeWidth=4" = "stroke=#ff0000 strokeWidth=4"
    ∧ ("stroke=#ff0000 strokeWidth=4" : String) ≠ ""
    ∧ strStartsWith "stroke=#ff0000 strokeWidth=4" "#" = false
    ∧ strContainsChar '=' "stroke=#ff0000 strokeWidth=4" = true
    ∧ reservedWords.contains (headTokenD "stroke=#ff0000 strokeWidth=4") = false
    ∧ rParsePath (["move 1 2", "line 3 4"]
          ++ ("\x7d " ++ "stroke=#ff0000 strokeWidth=4") :: ["end"]) []
        = rParsePath (["move 1 2", "line 3 4"]
            ++ "\x7d" :: "stroke=#ff0000 strokeWidth=4" :: ["end"]) []
    ∧ rResolveStroke (rParsePath (["move 1 2", "line 3 4"]
          ++ ("\x7d " ++ "stroke=#ff0000 strokeWidth=4") :: ["end"]) []).2.1 none
        = rResolveStroke (rParsePath (["move 1 2", "line 3 4"]
            ++ "\x7d" :: "stroke=#ff0000 strokeWidth=4" :: ["end"]) []).2.1 none
    ∧ rResolveWidth (rParsePath (["move 1 2", "line 3 4"]
          ++ ("\x7d " ++ "stroke=#ff0000 strokeWidth=4") :: ["end"]) []).2.1 2
        = rResolveWidth (rParsePath (["move 1 2", "line 3 4"]
            ++ "\x7d" :: "stroke=#ff0000 strokeWidth=4" :: ["end"]) []).2.1 2 :=
  ⟨by decide, by decide, by decide, by decide, by decide, by decide,
    (renderer_brace_tail_lookahead_equiv ["move 1 2", "line 3 4"]
      "stroke=#ff0000 strokeWidth=4" ["end"] [] (by decide) (by decide) (by decide)
      (by decide) (by decide) (by decide)).1,
    ((renderer_brace_tail_lookahead_equiv ["move 1 2", "line 3 4"]
      "stroke=#ff0000 strokeWidth=4" ["end"] [] (by decide) (by decide) (by decide)
      (by decide) (by decide) (by decide)).2 none 2).1,
    ((renderer_brace_tail_lookahead_equiv ["move 1 2", "line 3 4"]
      "stroke=#ff0000 strokeWidth=4" ["end"] [] (by decide) (by decide) (by decide)
      (by decide) (by decide) (by decide)).2 none 2).2⟩
end InkScript
